import Mathlib

/-!
Verification of the AgentBridge MCP gateway core against its specification.

The development shallowly embeds the Python source of the repository:

* `PyVal` models the dynamic JSON-like Python values that flow through the
  gateway (`None`, `bool`, `int`, `float`, `str`, lists/tuples, `dict`s with
  string keys).  Python numbers are modelled exactly: `int` as `ℤ` and `float`
  as `ℚ` (IEEE-754 rounding is not load-bearing for any statement proved here).
* `PropVal` models the protobuf `PropertyValue` wire message, with one field
  per proto field that the Python source reads or writes.
* The codec (`set_property_value`, `extract_property_value`,
  `property_value_to_dict`, `normalize_property_value`), the call-syntax
  parser (`parse_call`), the path normalizers (`normalize_asset_path`,
  `normalize_blueprint_class`) and the tool router
  (`handle_load_modules`, `handle_tools_call`, `get_client`) are translated
  from `src/server.py`, `src/services/__init__.py` and
  `src/services/agentbridge.py`.
-/

namespace AgentBridge

/-! ### Dynamic Python values

`PyVal.list` models both Python `list` and `tuple` (the source treats them
identically via `isinstance(value, (list, tuple))`; the `list`/`tuple`
distinction is never observable in the translated functions).  `PyVal.dict`
keeps entries in insertion order, as Python dicts do; a well-formed Python
dict has no duplicate keys. -/

inductive PyVal where
  | none
  | bool (b : Bool)
  | int (n : ℤ)
  | float (q : ℚ)
  | str (s : String)
  | list (xs : List PyVal)
  | dict (xs : List (String × PyVal))

/-- First-match association-list lookup: the semantics of `d[k]` / `d.get(k)`
on a Python dict (for well-formed dicts keys are unique, so first match is
the only match). -/
def alistGet {β : Type} (k : String) : List (String × β) → Option β
  | [] => Option.none
  | (k', v) :: rest => if k' = k then some v else alistGet k rest

/-- `k in d` for a Python dict. -/
def hasKey {β : Type} (k : String) (xs : List (String × β)) : Bool :=
  (alistGet k xs).isSome

/-- The numeric value of a Python object, if it is a number: models both the
successful cases of `float(value)` and the numeric view used by Python `==`
(`True == 1` and `1 == 1.0` hold).  Python's `float` also parses numeric
strings; no claim proved here evaluates `float` on a string, so strings are
modelled as non-numeric. -/
def pyNum : PyVal → Option ℚ
  | .bool b => some (if b then 1 else 0)
  | .int n => some (n : ℚ)
  | .float q => some q
  | _ => Option.none

/-- `float(d[k])` when `k` is known to be present. -/
def getNum (k : String) (xs : List (String × PyVal)) : Option ℚ :=
  match alistGet k xs with
  | some v => pyNum v
  | Option.none => Option.none

/-- `float(d.get(k, default))`. -/
def getNumD (k : String) (dflt : ℚ) (xs : List (String × PyVal)) : Option ℚ :=
  match alistGet k xs with
  | some v => pyNum v
  | Option.none => some dflt

/-- Key containment of every key of the first alist in the second. -/
def keysIncl {β : Type} : List (String × β) → List (String × β) → Bool
  | [], _ => true
  | (k, _) :: rest, ys => hasKey k ys && keysIncl rest ys

mutual
/-- Python `==` on the modelled values: numbers compare by numeric value
across `bool`/`int`/`float`; `None`, strings, lists and dicts compare by
kind and content; dicts compare as key-value sets (order-insensitive),
assuming well-formed (duplicate-free) dicts. -/
def pyEq : PyVal → PyVal → Bool
  | .none, .none => true
  | .str s, .str t => s == t
  | .list xs, .list ys => pyEqList xs ys
  | .dict xs, .dict ys =>
      (xs.length == ys.length) && pyEqSub xs ys && keysIncl ys xs
  | a, b =>
      match pyNum a, pyNum b with
      | some x, some y => x == y
      | _, _ => false

/-- Elementwise Python `==` on sequences. -/
def pyEqList : List PyVal → List PyVal → Bool
  | [], [] => true
  | x :: xs, y :: ys => pyEq x y && pyEqList xs ys
  | _, _ => false

/-- Every entry of the first dict is matched by an `==` entry of the second. -/
def pyEqSub : List (String × PyVal) → List (String × PyVal) → Bool
  | [], _ => true
  | (k, v) :: rest, ys =>
      (match alistGet k ys with
       | some w => pyEq v w
       | Option.none => false) && pyEqSub rest ys
end

/-! ### The `PropertyValue` wire message

`AgentBridge.proto` itself is not part of the repository (the generated
stubs are an external collaborator), so the message is modelled with one
field per proto field that the Python source reads or writes.  Proto scalar
fields default to `0`/`""`/`false` and message fields to all-zero messages,
which the helper constructors below reproduce. -/

structure Vec3 where
  x : ℚ
  y : ℚ
  z : ℚ
deriving DecidableEq

/-- Modelled from the spec: the rotator wire message inside `PropertyValue`
(`rotation_value`).  `AgentBridge.proto` is missing from the repository; the
spec's data model gives `Rotator{pitch,yaw,roll}` and the encoder
`_set_property_value` writes fields `pitch`, `yaw`, `roll`, so those are the
message's fields.  (`_extract_property_value` instead reads `p`/`y`/`r` on
this message; see `extract_property_value` below.) -/
structure RotPYR where
  pitch : ℚ
  yaw : ℚ
  roll : ℚ
deriving DecidableEq

/-- The Tempo geometry rotation message (`Geometry_pb2.Rotation`), whose
fields `p`, `y`, `r` are evidenced by constructor calls in the source
(`Geometry_pb2.Rotation(r=roll, p=pitch, y=yaw)`). -/
structure GeoRot where
  p : ℚ
  y : ℚ
  r : ℚ
deriving DecidableEq

/-- The transform wire message: both decoders read
`location.x/y/z`, `rotation.p/y/r`, `scale.x/y/z` on it. -/
structure TransformV where
  location : Vec3
  rotation : GeoRot
  scale : Vec3
deriving DecidableEq

/-- The color wire message; `_set_property_value` writes all of `r,g,b,a`. -/
structure ColorRGBA where
  r : ℚ
  g : ℚ
  b : ℚ
  a : ℚ
deriving DecidableEq

/-- The `PropertyValue` protobuf message.  Field order:
`ptype, bool_value, int_value, float_value, string_value, vector_value,
rotation_value, transform_value, color_value, object_path, struct_values,
array_values, enum_name, enum_value`.  `struct_values` models the repeated
`KeyValuePair` field as key-value pairs. -/
inductive PropVal where
  | mk (ptype : ℤ) (bool_value : Bool) (int_value : ℤ) (float_value : ℚ)
       (string_value : String) (vector_value : Vec3) (rotation_value : RotPYR)
       (transform_value : TransformV) (color_value : ColorRGBA)
       (object_path : String) (struct_values : List (String × PropVal))
       (array_values : List PropVal) (enum_name : String) (enum_value : ℤ)

def PropVal.ptype : PropVal → ℤ
  | .mk t _ _ _ _ _ _ _ _ _ _ _ _ _ => t

def PropVal.bool_value : PropVal → Bool
  | .mk _ b _ _ _ _ _ _ _ _ _ _ _ _ => b

def PropVal.int_value : PropVal → ℤ
  | .mk _ _ n _ _ _ _ _ _ _ _ _ _ _ => n

def PropVal.float_value : PropVal → ℚ
  | .mk _ _ _ q _ _ _ _ _ _ _ _ _ _ => q

def PropVal.string_value : PropVal → String
  | .mk _ _ _ _ s _ _ _ _ _ _ _ _ _ => s

def PropVal.vector_value : PropVal → Vec3
  | .mk _ _ _ _ _ v _ _ _ _ _ _ _ _ => v

def PropVal.rotation_value : PropVal → RotPYR
  | .mk _ _ _ _ _ _ r _ _ _ _ _ _ _ => r

def PropVal.transform_value : PropVal → TransformV
  | .mk _ _ _ _ _ _ _ t _ _ _ _ _ _ => t

def PropVal.color_value : PropVal → ColorRGBA
  | .mk _ _ _ _ _ _ _ _ c _ _ _ _ _ => c

def PropVal.object_path : PropVal → String
  | .mk _ _ _ _ _ _ _ _ _ o _ _ _ _ => o

def PropVal.struct_values : PropVal → List (String × PropVal)
  | .mk _ _ _ _ _ _ _ _ _ _ sv _ _ _ => sv

def PropVal.array_values : PropVal → List PropVal
  | .mk _ _ _ _ _ _ _ _ _ _ _ av _ _ => av

def PropVal.enum_name : PropVal → String
  | .mk _ _ _ _ _ _ _ _ _ _ _ _ en _ => en

def PropVal.enum_value : PropVal → ℤ
  | .mk _ _ _ _ _ _ _ _ _ _ _ _ _ ev => ev

/-- A freshly constructed `PropertyValue` message (all fields at their proto
defaults), as handed to `_set_property_value` by its callers. -/
def pvZero : PropVal :=
  .mk 0 false 0 0 "" ⟨0, 0, 0⟩ ⟨0, 0, 0⟩ ⟨⟨0, 0, 0⟩, ⟨0, 0, 0⟩, ⟨0, 0, 0⟩⟩
    ⟨0, 0, 0, 0⟩ "" [] [] "" 0

def pvNone : PropVal := pvZero

def pvBool (b : Bool) : PropVal :=
  .mk 1 b 0 0 "" ⟨0, 0, 0⟩ ⟨0, 0, 0⟩ ⟨⟨0, 0, 0⟩, ⟨0, 0, 0⟩, ⟨0, 0, 0⟩⟩
    ⟨0, 0, 0, 0⟩ "" [] [] "" 0

def pvInt (n : ℤ) : PropVal :=
  .mk 2 false n 0 "" ⟨0, 0, 0⟩ ⟨0, 0, 0⟩ ⟨⟨0, 0, 0⟩, ⟨0, 0, 0⟩, ⟨0, 0, 0⟩⟩
    ⟨0, 0, 0, 0⟩ "" [] [] "" 0

def pvFloat (q : ℚ) : PropVal :=
  .mk 3 false 0 q "" ⟨0, 0, 0⟩ ⟨0, 0, 0⟩ ⟨⟨0, 0, 0⟩, ⟨0, 0, 0⟩, ⟨0, 0, 0⟩⟩
    ⟨0, 0, 0, 0⟩ "" [] [] "" 0

def pvString (s : String) : PropVal :=
  .mk 4 false 0 0 s ⟨0, 0, 0⟩ ⟨0, 0, 0⟩ ⟨⟨0, 0, 0⟩, ⟨0, 0, 0⟩, ⟨0, 0, 0⟩⟩
    ⟨0, 0, 0, 0⟩ "" [] [] "" 0

def pvVector (x y z : ℚ) : PropVal :=
  .mk 6 false 0 0 "" ⟨x, y, z⟩ ⟨0, 0, 0⟩ ⟨⟨0, 0, 0⟩, ⟨0, 0, 0⟩, ⟨0, 0, 0⟩⟩
    ⟨0, 0, 0, 0⟩ "" [] [] "" 0

def pvRotator (p y r : ℚ) : PropVal :=
  .mk 7 false 0 0 "" ⟨0, 0, 0⟩ ⟨p, y, r⟩ ⟨⟨0, 0, 0⟩, ⟨0, 0, 0⟩, ⟨0, 0, 0⟩⟩
    ⟨0, 0, 0, 0⟩ "" [] [] "" 0

def pvColor (r g b a : ℚ) : PropVal :=
  .mk 9 false 0 0 "" ⟨0, 0, 0⟩ ⟨0, 0, 0⟩ ⟨⟨0, 0, 0⟩, ⟨0, 0, 0⟩, ⟨0, 0, 0⟩⟩
    ⟨r, g, b, a⟩ "" [] [] "" 0

def pvStruct (svs : List (String × PropVal)) : PropVal :=
  .mk 12 false 0 0 "" ⟨0, 0, 0⟩ ⟨0, 0, 0⟩ ⟨⟨0, 0, 0⟩, ⟨0, 0, 0⟩, ⟨0, 0, 0⟩⟩
    ⟨0, 0, 0, 0⟩ "" svs [] "" 0

def pvArray (avs : List PropVal) : PropVal :=
  .mk 13 false 0 0 "" ⟨0, 0, 0⟩ ⟨0, 0, 0⟩ ⟨⟨0, 0, 0⟩, ⟨0, 0, 0⟩, ⟨0, 0, 0⟩⟩
    ⟨0, 0, 0, 0⟩ "" [] avs "" 0

mutual
/-- `_set_property_value` (src/services/agentbridge.py:1717-1766), made
functional: the Python function mutates a freshly zero-initialized
`PropertyValue`; the model returns the resulting message.  `Option.none`
models an uncaught Python exception (`float()` failing on a non-numeric
component inside the vector/rotator/color dict branches). -/
def set_property_value : PyVal → Option PropVal
  | .none => some pvNone
  | .bool b => some (pvBool b)
  | .int n => some (pvInt n)
  | .float q => some (pvFloat q)
  | .str s => some (pvString s)
  | .dict xs =>
      if hasKey "x" xs && hasKey "y" xs && hasKey "z" xs && xs.length == 3 then
        match getNum "x" xs, getNum "y" xs, getNum "z" xs with
        | some x, some y, some z => some (pvVector x y z)
        | _, _, _ => Option.none
      else if hasKey "pitch" xs && hasKey "yaw" xs && hasKey "roll" xs then
        match getNum "pitch" xs, getNum "yaw" xs, getNum "roll" xs with
        | some p, some y, some r => some (pvRotator p y r)
        | _, _, _ => Option.none
      else if hasKey "r" xs && hasKey "g" xs && hasKey "b" xs then
        match getNumD "r" 0 xs, getNumD "g" 0 xs, getNumD "b" 0 xs,
              getNumD "a" 1 xs with
        | some r, some g, some b, some a => some (pvColor r g b a)
        | _, _, _, _ => Option.none
      else
        match setStructValues xs with
        | some svs => some (pvStruct svs)
        | Option.none => Option.none
  | .list xs =>
      match setArrayValues xs with
      | some avs => some (pvArray avs)
      | Option.none => Option.none

/-- The struct branch of `_set_property_value`: each entry of the dict is
recursively encoded into a fresh `KeyValuePair` (`kv.key = str(k)` is the
identity here since the modelled keys are strings). -/
def setStructValues : List (String × PyVal) → Option (List (String × PropVal))
  | [] => some []
  | (k, v) :: rest =>
      match set_property_value v, setStructValues rest with
      | some pv, some r => some ((k, pv) :: r)
      | _, _ => Option.none

/-- The array branch of `_set_property_value`. -/
def setArrayValues : List PyVal → Option (List PropVal)
  | [] => some []
  | v :: rest =>
      match set_property_value v, setArrayValues rest with
      | some pv, some r => some (pv :: r)
      | _, _ => Option.none
end

mutual
/-- `_property_value_to_dict` (src/services/agentbridge.py:1651-1714): the
total decoder used by `call_function` result handling.  Transform components
decode to coordinate lists; `Object`/`Class` decode from `object_path`
(empty path → `None`); `Map` decodes from `struct_values`; `Enum` decodes to
a `name`/`value` dict; unknown tags decode to a `"<unknown type t>"`
string. -/
def property_value_to_dict (pv : PropVal) : PyVal :=
  match pv with
  | .mk t bv nv fv sv vec rot tf col op svs avs en ev =>
      if t = 0 then .none
      else if t = 1 then .bool bv
      else if t = 2 then .int nv
      else if t = 3 then .float fv
      else if t = 4 ∨ t = 5 then .str sv
      else if t = 6 then
        .dict [("x", .float vec.x), ("y", .float vec.y), ("z", .float vec.z)]
      else if t = 7 then
        .dict [("pitch", .float rot.pitch), ("yaw", .float rot.yaw),
               ("roll", .float rot.roll)]
      else if t = 8 then
        .dict [("location", .list [.float tf.location.x, .float tf.location.y,
                                   .float tf.location.z]),
               ("rotation", .list [.float tf.rotation.p, .float tf.rotation.y,
                                   .float tf.rotation.r]),
               ("scale", .list [.float tf.scale.x, .float tf.scale.y,
                                .float tf.scale.z])]
      else if t = 9 then
        .dict [("r", .float col.r), ("g", .float col.g), ("b", .float col.b),
               ("a", .float col.a)]
      else if t = 10 ∨ t = 11 then
        if op = "" then .none else .str op
      else if t = 12 then .dict (pvtdStruct svs)
      else if t = 13 then .list (pvtdArray avs)
      else if t = 14 then .dict (pvtdStruct svs)
      else if t = 15 then .dict [("name", .str en), ("value", .int ev)]
      else .str ("<unknown type " ++ toString t ++ ">")

def pvtdStruct : List (String × PropVal) → List (String × PyVal)
  | [] => []
  | (k, v) :: rest => (k, property_value_to_dict v) :: pvtdStruct rest

def pvtdArray : List PropVal → List PyVal
  | [] => []
  | v :: rest => property_value_to_dict v :: pvtdArray rest
end

mutual
/-- `_extract_property_value` (src/services/agentbridge.py:1356-1437): the
decoder used by `get_property`.  `Option.none` models an uncaught Python
exception: on the `ROTATOR` tag the source reads fields `p`, `y`, `r` from
`rotation_value`, whose message (modelled from the spec, see `RotPYR`) has
fields `pitch`, `yaw`, `roll`, so the read raises `AttributeError`.  `Name`
and `Object`/`Class` decode from `string_value`; `Struct`/`Array` fall back
to `string_value` when their repeated fields are empty; tags above 13
(including `Map` and `Enum`) fall back to `string_value`. -/
def extract_property_value (pv : PropVal) : Option PyVal :=
  match pv with
  | .mk t bv nv fv sv vec _rot tf col _op svs avs _en _ev =>
      if t = 0 then some .none
      else if t = 1 then some (.bool bv)
      else if t = 2 then some (.int nv)
      else if t = 3 then some (.float fv)
      else if t = 4 ∨ t = 5 then some (.str sv)
      else if t = 6 then
        some (.dict [("x", .float vec.x), ("y", .float vec.y),
                     ("z", .float vec.z)])
      else if t = 7 then Option.none
      else if t = 8 then
        some (.dict [("location",
                      .dict [("x", .float tf.location.x),
                             ("y", .float tf.location.y),
                             ("z", .float tf.location.z)]),
                     ("rotation",
                      .dict [("pitch", .float tf.rotation.p),
                             ("yaw", .float tf.rotation.y),
                             ("roll", .float tf.rotation.r)]),
                     ("scale",
                      .dict [("x", .float tf.scale.x),
                             ("y", .float tf.scale.y),
                             ("z", .float tf.scale.z)])])
      else if t = 9 then
        some (.dict [("r", .float col.r), ("g", .float col.g),
                     ("b", .float col.b), ("a", .float col.a)])
      else if t = 10 ∨ t = 11 then some (.str sv)
      else if t = 12 then
        if svs.isEmpty then
          if sv ≠ "" then some (.str sv) else some (.dict [])
        else
          match extractStruct svs with
          | some d => some (.dict d)
          | Option.none => Option.none
      else if t = 13 then
        if avs.isEmpty then
          if sv ≠ "" then some (.str sv) else some (.list [])
        else
          match extractArray avs with
          | some l => some (.list l)
          | Option.none => Option.none
      else some (.str sv)

def extractStruct : List (String × PropVal) → Option (List (String × PyVal))
  | [] => some []
  | (k, v) :: rest =>
      match extract_property_value v, extractStruct rest with
      | some d, some r => some ((k, d) :: r)
      | _, _ => Option.none

def extractArray : List PropVal → Option (List PyVal)
  | [] => some []
  | v :: rest =>
      match extract_property_value v, extractArray rest with
      | some d, some r => some (d :: r)
      | _, _ => Option.none
end

/-! ### String helpers for the call-syntax parser and path normalizers

Python string primitives (`split`, `rfind`, `find`, `startswith`, `in`,
`join`) are modelled on `List Char`.  `splitFirstSeq` is `split(sep, 1)`
together with the `sep in s` test (`some` iff the separator occurs);
`splitOnChar` is full `split(c)` (keeping empty pieces, as Python does);
`splitFirstChar`/`splitLastChar` package `find`/`rfind` with the two
slices around the found separator. -/

def startsWithChar (c : Char) : List Char → Bool
  | [] => false
  | d :: _ => d = c

def splitFirstSeq (pat : List Char) : List Char → Option (List Char × List Char)
  | [] => Option.none
  | c :: rest =>
      if pat.isPrefixOf (c :: rest) then some ([], (c :: rest).drop pat.length)
      else
        match splitFirstSeq pat rest with
        | some (a, b) => some (c :: a, b)
        | Option.none => Option.none

def splitOnChar (c : Char) : List Char → List (List Char)
  | [] => [[]]
  | d :: rest =>
      match splitOnChar c rest with
      | [] => [[]]
      | h :: t => if d = c then [] :: h :: t else (d :: h) :: t

def joinChar (c : Char) : List (List Char) → List Char
  | [] => []
  | [x] => x
  | x :: y :: t => x ++ c :: joinChar c (y :: t)

def splitFirstChar (c : Char) : List Char → Option (List Char × List Char)
  | [] => Option.none
  | d :: rest =>
      if d = c then some ([], rest)
      else
        match splitFirstChar c rest with
        | some (a, b) => some (d :: a, b)
        | Option.none => Option.none

def splitLastChar (c : Char) (l : List Char) : Option (List Char × List Char) :=
  match splitFirstChar c l.reverse with
  | some (a, b) => some (b.reverse, a.reverse)
  | Option.none => Option.none

def endsWithSeq (suf l : List Char) : Bool :=
  suf.reverse.isPrefixOf l.reverse

/-! ### The string-normalization encoder

`_normalize_property_value` returns Python strings built with f-strings over
float `repr`s ("(R=1.0,G=0.0,B=0.0,A=1.0)" and the like).  Decimal `repr` of
binary64 floats is not load-bearing for any claim, so the output string is
modelled by the inductive `NormStr`, one constructor per `return` site of the
source with the interpolated numeric channels kept exact; two return sites
that produce a fixed, exactly-known string (`str()` of a bool or an int) are
modelled as `plainStr` of that string. -/

inductive NormStr where
  /-- A string returned verbatim (the string branch, `"true"`/`"false"`,
  `str()` of an int, and `str(None) = "None"`). -/
  | plainStr (s : String)
  /-- `f"(R={r},G={g},B={b},A={a})"`. -/
  | colorLit (r g b a : ℚ)
  /-- `f"(X={x},Y={y},Z={z})"`. -/
  | vectorLit (x y z : ℚ)
  /-- `f"(Pitch={p},Yaw={y},Roll={r})"`. -/
  | rotatorLit (p y r : ℚ)
  /-- `str()` of a float (decimal repr not modelled). -/
  | floatLit (q : ℚ)
  /-- `json.dumps(value)` of a dict or list. -/
  | jsonLit (v : PyVal)

/-- The value of one hexadecimal digit, as accepted by Python `int(_, 16)`.
(`int(_, 16)` additionally strips whitespace and accepts a sign; no claim
evaluates it on such corner inputs, which are not hex-literal digits.) -/
def hexDigitVal (c : Char) : Option ℕ :=
  if '0' ≤ c ∧ c ≤ '9' then some (c.toNat - '0'.toNat)
  else if 'a' ≤ c ∧ c ≤ 'f' then some (c.toNat - 'a'.toNat + 10)
  else if 'A' ≤ c ∧ c ≤ 'F' then some (c.toNat - 'A'.toNat + 10)
  else Option.none

/-- `int(s, 16)` on a two-character slice: `some` of the pair value iff both
characters are hex digits (`ValueError` otherwise, modelled as `none`). -/
def hexPairVal (c1 c2 : Char) : Option ℕ :=
  match hexDigitVal c1, hexDigitVal c2 with
  | some h, some l => some (16 * h + l)
  | _, _ => Option.none

/-- The hex-literal branch of `_normalize_property_value`
(src/services/agentbridge.py:1281-1290), applied to `hex_str = value[1:]`:
the string is split into two-char slices, each parsed base 16 and divided by
255.0; alpha defaults to 1.0 when only six digits are present.  A
`ValueError` anywhere makes the branch fall through (`none`). -/
def hexColorChannels (hex_str : List Char) : Option (ℚ × ℚ × ℚ × ℚ) :=
  match hex_str with
  | c1 :: c2 :: c3 :: c4 :: c5 :: c6 :: rest =>
      match hexPairVal c1 c2, hexPairVal c3 c4, hexPairVal c5 c6 with
      | some r, some g, some b =>
          match rest with
          | [] => some ((r : ℚ) / 255, (g : ℚ) / 255, (b : ℚ) / 255, 1)
          | [c7, c8] =>
              match hexPairVal c7 c8 with
              | some a => some ((r : ℚ) / 255, (g : ℚ) / 255, (b : ℚ) / 255,
                                (a : ℚ) / 255)
              | Option.none => Option.none
          | _ => Option.none
      | _, _, _ => Option.none
  | _ => Option.none

/-- `'color' in hint.lower()` and friends.  Substring containment, scanning
left to right as Python `in` does. -/
def containsSeq (pat : List Char) : List Char → Bool
  | [] => pat.isEmpty
  | c :: rest => pat.isPrefixOf (c :: rest) || containsSeq pat rest

def strContains (s pat : String) : Bool :=
  containsSeq pat.data s.data

/-- Python `str.lower()` restricted to ASCII (property hints in this
repository are ASCII property paths). -/
def asciiLower (s : String) : String :=
  ⟨s.data.map fun c => if 'A' ≤ c ∧ c ≤ 'Z' then Char.ofNat (c.toNat + 32) else c⟩

/-- `[float(x) for x in value]`: the element-wise coercion of the sequence
branches of `_normalize_property_value`. -/
def numsOf : List PyVal → Option (List ℚ)
  | [] => some []
  | v :: rest =>
      match pyNum v, numsOf rest with
      | some q, some r => some (q :: r)
      | _, _ => Option.none

/-- `_normalize_property_value` (src/services/agentbridge.py:1249-1353): the
string-normalization encoder used by `set_property`.  Output strings are
modelled by `NormStr`; `Option.none` models an uncaught `float()` failure on
a non-numeric element in the 3/4-element sequence branches or the
vector/rotator/color dict branches. -/
def normalize_property_value (value : PyVal) (property_hint : String) :
    Option NormStr :=
  let hint_lower := asciiLower property_hint
  let is_color_hint := strContains hint_lower "color"
  let is_rotation_hint :=
    strContains hint_lower "rotation" || strContains hint_lower "rotator"
  match value with
  | .str s =>
      if startsWithChar '#' s.data && (s.data.length == 7 || s.data.length == 9) then
        match hexColorChannels s.data.tail with
        | some (r, g, b, a) => some (.colorLit r g b a)
        | Option.none => some (.plainStr s)
      else some (.plainStr s)
  | .bool b => some (.plainStr (if b then "true" else "false"))
  | .int n => some (.plainStr (toString n))
  | .float q => some (.floatLit q)
  | .dict xs =>
      if hasKey "r" xs && hasKey "g" xs && hasKey "b" xs then
        match getNumD "r" 0 xs, getNumD "g" 0 xs, getNumD "b" 0 xs,
              getNumD "a" 1 xs with
        | some r, some g, some b, some a => some (.colorLit r g b a)
        | _, _, _, _ => Option.none
      else if hasKey "x" xs && hasKey "y" xs && hasKey "z" xs then
        match getNumD "x" 0 xs, getNumD "y" 0 xs, getNumD "z" 0 xs with
        | some x, some y, some z => some (.vectorLit x y z)
        | _, _, _ => Option.none
      else if hasKey "pitch" xs || hasKey "yaw" xs || hasKey "roll" xs then
        match getNumD "pitch" 0 xs, getNumD "yaw" 0 xs, getNumD "roll" 0 xs with
        | some p, some y, some r => some (.rotatorLit p y r)
        | _, _, _ => Option.none
      else some (.jsonLit (.dict xs))
  | .list xs =>
      if xs.length == 3 then
        match numsOf xs with
        | some vs =>
            match vs with
            | [v0, v1, v2] =>
                if is_color_hint then some (.colorLit v0 v1 v2 1)
                else if is_rotation_hint then some (.rotatorLit v0 v1 v2)
                else some (.vectorLit v0 v1 v2)
            | _ => Option.none
        | Option.none => Option.none
      else if xs.length == 4 then
        match numsOf xs with
        | some vs =>
            match vs with
            | [v0, v1, v2, v3] => some (.colorLit v0 v1 v2 v3)
            | _ => Option.none
        | Option.none => Option.none
      else some (.jsonLit (.list xs))
  | .none => some (.plainStr "None")

/-! ### The call-syntax parser -/

/-- The routing decision of `_parse_call_syntax`: the Python function
returns a dict with a `"type"` discriminator and `component`/`subobject`
keys that are present only in some variants (modelled as `Option`). -/
inductive CallTarget where
  | static (target function : String)
  | asset (target function : String) (subobject : Option String)
  | actor (target function : String) (component : Option String)
  | error (message : String)
deriving DecidableEq

/-- `_parse_call_syntax` (src/services/agentbridge.py:46-103). -/
def parse_call (call : String) : CallTarget :=
  match splitFirstSeq "::".data call.data with
  | some (target, functionPart) =>
      if startsWithChar '/' target then
        let path_parts := splitOnChar '/' target
        let last_segment := path_parts.getLastD []
        let dot_parts := splitOnChar '.' last_segment
        if 2 < dot_parts.length then
          let asset_name := dot_parts.getD 0 [] ++ '.' :: dot_parts.getD 1 []
          let subobject := joinChar '.' (dot_parts.drop 2)
          let asset_path := joinChar '/' path_parts.dropLast ++ '/' :: asset_name
          .asset ⟨asset_path⟩ ⟨functionPart⟩ (some ⟨subobject⟩)
        else
          .asset ⟨target⟩ ⟨functionPart⟩ Option.none
      else
        .static ⟨target⟩ ⟨functionPart⟩
  | Option.none =>
      match splitLastChar '.' call.data with
      | some (target_path, functionPart) =>
          match splitFirstChar '.' target_path with
          | some (actorPart, componentPart) =>
              .actor ⟨actorPart⟩ ⟨functionPart⟩ (some ⟨componentPart⟩)
          | Option.none => .actor ⟨target_path⟩ ⟨functionPart⟩ Option.none
      | Option.none =>
          .error ("Invalid call syntax '" ++ call ++
            "'. Use Class::Function for static, Actor.Function for instance, or /Asset/Path::Function for assets.")

/-! ### The path normalizers -/

/-- `_normalize_asset_path` (src/services/agentbridge.py:1531-1574): append
the `.AssetName` object suffix to an absolute path whose final segment has
no dot.  The `rfind == -1` branch of the source is kept even though it is
unreachable once the path starts with `/`. -/
def normalize_asset_path (path : String) : String :=
  if path = "" then path
  else if ¬ startsWithChar '/' path.data then path
  else
    match splitLastChar '/' path.data with
    | Option.none => path
    | some (_, final_part) =>
        if final_part.contains '.' then path
        else ⟨path.data ++ '.' :: final_part⟩

/-- `_normalize_blueprint_class` (src/services/agentbridge.py:1577-1623):
append the `_C` generated-class marker to Blueprint-looking class names. -/
def normalize_blueprint_class (class_name : String) : String :=
  if class_name = "" then class_name
  else if endsWithSeq "_C".data class_name.data then class_name
  else
    let is_blueprint_path :=
      containsSeq "/Game/".data class_name.data ||
      containsSeq "/Script/".data class_name.data ||
      (startsWithChar '/' class_name.data && class_name.data.contains '.')
    let is_short_bp_name :=
      "BP_".data.isPrefixOf class_name.data && !class_name.data.contains '/'
    if is_blueprint_path then ⟨class_name.data ++ "_C".data⟩
    else if is_short_bp_name then ⟨class_name.data ++ "_C".data⟩
    else class_name

/-! ### The tool router

The router state and dispatch of `MCPServer` (src/server.py).  Service
modules carry their backend `connect`/`execute` collaborators as functions
into `Except String`; a `.error e` models the collaborator raising an
exception whose `str()` is `e`.  The client type `γ` is abstract.  Python
dicts keyed by strings (`self.services`, `self.clients`,
`self.tool_to_service`, `MODULES`) are modelled as association lists with
in-place overwriting insertion, which matches dict update semantics. -/

/-- Insert into a string-keyed dict: overwrite in place if present (Python
dicts keep the original position on update), else append. -/
def alistPut {β : Type} (k : String) (v : β) :
    List (String × β) → List (String × β)
  | [] => [(k, v)]
  | (k', v') :: rest =>
      if k' = k then (k, v) :: rest else (k', v') :: alistPut k v rest

/-- A tool descriptor.  Of the dict `{name, description, inputSchema}` only
`name` is read by the router (`tool["name"]`); the other two entries are
opaque payload and are omitted. -/
structure Tool where
  name : String
deriving DecidableEq

/-- A registered service module (`ServiceModule` in
src/services/__init__.py): its name, tool descriptors, and the backend
collaborators `connect(host, port)` and `execute(client, tool_name, args)`. -/
structure Service (γ : Type) where
  name : String
  tools : List Tool
  connectFn : String → ℕ → Except String γ
  executeFn : γ → String → PyVal → Except String String

/-- The `MODULES` catalog (src/services/__init__.py:41-164), transcribed
verbatim: module name ↦ tool names, in definition order. -/
def MODULES : List (String × List String) :=
  [("core",
    ["help", "list_worlds", "set_target_world", "quit",
     "execute_console_command", "search_console_commands"]),
   ("classes",
    ["query_actors", "get_actor", "spawn_actor", "delete_actor",
     "duplicate_actor", "get_property", "set_property", "set_transform",
     "get_transform", "attach", "detach", "add_component", "call_function",
     "list_classes", "get_class_schema", "create_asset", "save_asset",
     "duplicate_asset", "save_actor_as_blueprint"]),
   ("editor",
    ["play_in_editor", "simulate", "stop", "save_level", "open_level",
     "new_level", "get_current_level"]),
   ("world_partition",
    ["is_world_partitioned", "query_all_actors", "get_streaming_state",
     "query_landscape", "get_landscape_bounds", "get_data_layers",
     "get_actors_in_data_layer"]),
   ("files",
    ["read_project_file", "write_project_file", "list_project_directory",
     "copy_project_file"]),
   ("bp_toolkit",
    ["bp_create_node", "bp_connect_pins", "bp_disconnect_pins",
     "bp_delete_node", "bp_list_nodes", "bp_list_pins", "pcg_add_node",
     "pcg_connect", "pcg_disconnect", "pcg_delete_node", "pcg_list_nodes",
     "pcg_get_input_output_nodes", "bp_export_asset", "bp_import_asset",
     "bp_detect_type", "bp_get_info", "bp_list_properties", "bp_get_property",
     "bp_set_property", "bp_clone_asset", "bp_list_graphs", "bp_add_comment",
     "bp_clone_node", "bp_find", "bp_query", "bp_parse"]),
   ("tempo_sim",
    ["tempo_play", "tempo_pause", "tempo_step", "tempo_advance_steps",
     "tempo_set_time_mode", "tempo_set_sim_rate", "tempo_set_control_mode",
     "tempo_load_level", "tempo_finish_loading_level",
     "tempo_set_viewport_render", "tempo_set_date", "tempo_set_time_of_day",
     "tempo_set_day_cycle_rate", "tempo_get_datetime",
     "tempo_set_geographic_reference", "tempo_get_actor_state",
     "tempo_get_actors_near", "tempo_get_commandable_vehicles",
     "tempo_command_vehicle", "tempo_get_commandable_pawns",
     "tempo_pawn_move_to", "tempo_rebuild_navigation",
     "tempo_run_zone_graph_builder", "tempo_get_available_sensors",
     "tempo_get_label_map", "tempo_get_lanes", "tempo_get_lane_accessibility",
     "tempo_get_zones"])]

/-- `get_enabled_tools` (src/services/__init__.py:244-250): the tool names
enabled by a module list.  The Python function builds a `set`; only
membership is ever observed, so a concatenated list is an equivalent
model. -/
def get_enabled_tools (modules : List String) : List String :=
  modules.foldl
    (fun acc m =>
      match alistGet m MODULES with
      | some ts => acc ++ ts
      | Option.none => acc)
    []

/-- `get_filtered_services` (src/services/__init__.py:289-307): each
registered service keeps only tools whose names are enabled; services left
with no tools are dropped. -/
def get_filtered_services {γ : Type} (enabled_modules : List String)
    (registry : List (Service γ)) : List (Service γ) :=
  let enabled_tools := get_enabled_tools enabled_modules
  registry.filterMap fun s =>
    let ts := s.tools.filter fun t => enabled_tools.contains t.name
    if ts.isEmpty then Option.none
    else some { s with tools := ts }

/-- `tool_to_service` construction (src/server.py:98-101 and 177-180): for
each service in order, each of its tools maps to the service's name, later
registrations overwriting earlier ones. -/
def buildToolMap {γ : Type} (services : List (Service γ)) :
    List (String × String) :=
  services.foldl
    (fun m s => s.tools.foldl (fun m t => alistPut t.name s.name m) m)
    []

/-- The mutable state of `MCPServer`: host/port, the enabled module list,
the filtered services, the tool index, and the per-service client cache. -/
structure ServerState (γ : Type) where
  host : String
  port : ℕ
  enabled_modules : List String
  services : List (Service γ)
  tool_to_service : List (String × String)
  clients : List (String × γ)

/-- The result dict of `_handle_load_modules`. -/
structure LoadResult where
  loaded_modules : List String
  new_tools : List String
  total_modules : ℕ
  total_tools : ℕ
deriving DecidableEq

/-- The loop of `_handle_load_modules` (src/server.py:161-170): fold over
the requested names, skipping names already enabled (per the snapshot taken
before the loop) or absent from the catalog, and accumulating the extended
module list, the newly loaded names, and their catalog tools. -/
def loadLoop (already_enabled : List String) :
    List String → List String × List String × List String
  | [] => ([], [], [])
  | m :: rest =>
      let (en, nl, nt) := loadLoop already_enabled rest
      if already_enabled.contains m then (en, nl, nt)
      else
        match alistGet m MODULES with
        | Option.none => (en, nl, nt)
        | some ts => (m :: en, m :: nl, ts ++ nt)

/-- `_handle_load_modules` (src/server.py:147-190), over the fixed global
registry: returns the result dict and the updated server state.  The tool
index and services are rebuilt only when something was newly loaded;
`total_tools` counts the tool index plus one for `load_modules` itself. -/
def handle_load_modules {γ : Type} (registry : List (Service γ))
    (requested_modules : List String) (st : ServerState γ) :
    LoadResult × ServerState γ :=
  let (appended, newly_loaded, new_tools) :=
    loadLoop st.enabled_modules requested_modules
  let enabled' := st.enabled_modules ++ appended
  let services' :=
    if newly_loaded.isEmpty then st.services
    else get_filtered_services enabled' registry
  let map' :=
    if newly_loaded.isEmpty then st.tool_to_service
    else buildToolMap services'
  ({ loaded_modules := newly_loaded
     new_tools := new_tools
     total_modules := enabled'.length
     total_tools := map'.length + 1 },
   { st with enabled_modules := enabled', services := services',
             tool_to_service := map' })

/-- `_get_client` (src/server.py:125-136): return the cached client, else
connect and cache; a `connect` exception is caught and yields `None`
(nothing is cached); an unknown service also yields `None`. -/
def get_client {γ : Type} (st : ServerState γ) (service_name : String) :
    Option γ × ServerState γ :=
  match alistGet service_name st.clients with
  | some c => (some c, st)
  | Option.none =>
      match st.services.find? (fun s => s.name = service_name) with
      | Option.none => (Option.none, st)
      | some svc =>
          match svc.connectFn st.host st.port with
          | .ok c =>
              (some c, { st with clients := alistPut service_name c st.clients })
          | .error _ => (Option.none, st)

/-- The `"text"` payload of one `tools/call` content item: either the raw
string returned by a service's `execute`, or `json.dumps` of an error dict
`{"error": msg}`, or `json.dumps` of a `load_modules` result dict (the
model keeps the pre-serialization value; JSON rendering is not
load-bearing). -/
inductive ContentText where
  | raw (s : String)
  | jsonErr (msg : String)
  | jsonLoad (r : LoadResult)
deriving DecidableEq

/-- A `tools/call` result payload: `content` plus the `isError` flag (the
source omits the key on success, which is falsy — modelled as `false`). -/
structure CallResult where
  content : List ContentText
  isError : Bool
deriving DecidableEq

/-- A JSON-RPC output message: `_make_response` or `_make_error`.  The
message id is kept abstract as an integer. -/
inductive RpcOut where
  | response (msgId : ℤ) (result : CallResult)
  | rpcError (msgId : ℤ) (code : ℤ) (message : String)
deriving DecidableEq

def firstModuleAux (tool_name : String) :
    List (String × List String) → Option String
  | [] => Option.none
  | (m, ts) :: rest =>
      if ts.contains tool_name then some m else firstModuleAux tool_name rest

/-- The search over the catalog in `_handle_tools_call`
(src/server.py:272-283): whether the name belongs to any catalog module
(`tool_name in all_tools`) and, if so, the first module containing it. -/
def firstModuleFor (tool_name : String) : Option String :=
  firstModuleAux tool_name MODULES

def stringsOf : List PyVal → List String
  | [] => []
  | .str s :: rest => s :: stringsOf rest
  | _ :: rest => stringsOf rest

/-- `arguments.get("modules", [])`, decoded to the string elements of the
list.  (Python would iterate arbitrary values and skip any non-string at
the catalog-membership check; non-list values are not modelled, as no claim
exercises them.) -/
def modulesArg (args : PyVal) : List String :=
  match args with
  | .dict xs =>
      match alistGet "modules" xs with
      | some (.list l) => stringsOf l
      | _ => []
  | _ => []

/-- The `ToolNotLoaded` error text (src/server.py:290-291). -/
def notLoadedMsg (tool_name module_for_tool : String) : String :=
  "Tool '" ++ tool_name ++ "' is not loaded. Load module '" ++
    module_for_tool ++ "' first: load_modules(modules=[\"" ++
    module_for_tool ++ "\"])"

/-- The `BackendUnavailable` error text (src/server.py:316-317). -/
def notConnectedMsg (service_name host : String) (port : ℕ) : String :=
  "Not connected to " ++ service_name ++ " at " ++ host ++ ":" ++
    toString port ++ ". Make sure Unreal Editor is running with the appropriate plugin."

/-- `_handle_tools_call` (src/server.py:248-346): the full `tools/call`
dispatch.  `str()` of a `KeyError` on a missing service is `"'name'"`. -/
def handle_tools_call {γ : Type} (registry : List (Service γ)) (msgId : ℤ)
    (tool_name : String) (args : PyVal) (st : ServerState γ) :
    RpcOut × ServerState γ :=
  if tool_name = "load_modules" then
    let (result, st') := handle_load_modules registry (modulesArg args) st
    (.response msgId { content := [.jsonLoad result], isError := false }, st')
  else
    match alistGet tool_name st.tool_to_service with
    | Option.none =>
        match firstModuleFor tool_name with
        | some module_for_tool =>
            (.response msgId
              { content := [.jsonErr (notLoadedMsg tool_name module_for_tool)]
                isError := true }, st)
        | Option.none =>
            (.response msgId
              { content := [.jsonErr ("Unknown tool: " ++ tool_name)]
                isError := true }, st)
    | some service_name =>
        let (client?, st') := get_client st service_name
        match client? with
        | Option.none =>
            (.response msgId
              { content := [.jsonErr (notConnectedMsg service_name st.host st.port)]
                isError := true }, st')
        | some client =>
            match st'.services.find? (fun s => s.name = service_name) with
            | Option.none =>
                (.response msgId
                  { content := [.jsonErr ("'" ++ service_name ++ "'")]
                    isError := true }, st')
            | some svc =>
                match svc.executeFn client tool_name args with
                | .ok result =>
                    (.response msgId
                      { content := [.raw result], isError := false }, st')
                | .error e =>
                    (.response msgId
                      { content := [.jsonErr e], isError := true }, st')

/-! ### Properties of the string helpers -/

theorem isPrefixOf_self_append (l t : List Char) : l.isPrefixOf (l ++ t) = true := by
  induction l with
  | nil => simp [List.isPrefixOf]
  | cons a as ih => simp [List.isPrefixOf, ih]

theorem splitFirstChar_some (c : Char) :
    ∀ (l a b : List Char), splitFirstChar c l = some (a, b) →
      l = a ++ c :: b ∧ c ∉ a := by
  intro l
  induction l with
  | nil => intro a b h; simp [splitFirstChar] at h
  | cons d rest ih =>
      intro a b h
      rw [splitFirstChar] at h
      by_cases hd : d = c
      · rw [if_pos hd] at h
        simp only [Option.some.injEq, Prod.mk.injEq] at h
        obtain ⟨ha, hb⟩ := h
        subst ha; subst hb
        simp [hd]
      · rw [if_neg hd] at h
        cases hrest : splitFirstChar c rest with
        | none => rw [hrest] at h; simp at h
        | some p =>
            obtain ⟨a', b'⟩ := p
            rw [hrest] at h
            simp only [Option.some.injEq, Prod.mk.injEq] at h
            obtain ⟨ha, hb⟩ := h
            subst ha; subst hb
            obtain ⟨hl, hmem⟩ := ih a' b' hrest
            constructor
            · simp [hl]
            · intro hc
              rcases List.mem_cons.mp hc with h1 | h1
              · exact hd h1.symm
              · exact hmem h1

theorem splitFirstChar_none (c : Char) :
    ∀ (l : List Char), splitFirstChar c l = Option.none → c ∉ l := by
  intro l
  induction l with
  | nil => intro _; simp
  | cons d rest ih =>
      intro h
      rw [splitFirstChar] at h
      by_cases hd : d = c
      · rw [if_pos hd] at h; simp at h
      · rw [if_neg hd] at h
        cases hrest : splitFirstChar c rest with
        | none =>
            intro hc
            rcases List.mem_cons.mp hc with h1 | h1
            · exact hd h1.symm
            · exact ih hrest h1
        | some p => obtain ⟨a', b'⟩ := p; rw [hrest] at h; simp at h

theorem splitFirstChar_append_of_not_mem (c : Char) :
    ∀ (xs ys : List Char), c ∉ xs →
      splitFirstChar c (xs ++ ys) =
        (match splitFirstChar c ys with
         | some (a, b) => some (xs ++ a, b)
         | Option.none => Option.none) := by
  intro xs
  induction xs with
  | nil =>
      intro ys _
      cases h : splitFirstChar c ys with
      | none => simp [h]
      | some p => obtain ⟨a, b⟩ := p; simp [h]
  | cons d rest ih =>
      intro ys hmem
      have hd : ¬ d = c := fun h => hmem (h ▸ List.mem_cons_self d rest)
      have hrest : c ∉ rest := fun h => hmem (List.mem_cons_of_mem d h)
      rw [List.cons_append, splitFirstChar, if_neg hd, ih ys hrest]
      cases h : splitFirstChar c ys with
      | none => simp
      | some p => obtain ⟨a, b⟩ := p; simp

theorem splitLastChar_some (c : Char) (l a b : List Char) :
    splitLastChar c l = some (a, b) → l = a ++ c :: b ∧ c ∉ b := by
  intro h
  rw [splitLastChar] at h
  cases hrev : splitFirstChar c l.reverse with
  | none => rw [hrev] at h; simp at h
  | some p =>
      obtain ⟨a', b'⟩ := p
      rw [hrev] at h
      simp only [Option.some.injEq, Prod.mk.injEq] at h
      obtain ⟨ha, hb⟩ := h
      obtain ⟨hl, hmem⟩ := splitFirstChar_some c l.reverse a' b' hrev
      subst ha; subst hb
      constructor
      · have := congrArg List.reverse hl
        simpa [List.reverse_append] using this
      · intro hc
        exact hmem (by simpa using hc)

theorem splitLastChar_none (c : Char) (l : List Char) :
    splitLastChar c l = Option.none → c ∉ l := by
  intro h
  rw [splitLastChar] at h
  cases hrev : splitFirstChar c l.reverse with
  | none =>
      intro hc
      exact splitFirstChar_none c l.reverse hrev (by simpa using hc)
  | some p => obtain ⟨a', b'⟩ := p; rw [hrev] at h; simp at h

/-- Appending a separator-free suffix moves it into the last slice. -/
theorem splitLastChar_append_of_not_mem (c : Char) (l suf a b : List Char)
    (h : splitLastChar c l = some (a, b)) (hsuf : c ∉ suf) :
    splitLastChar c (l ++ suf) = some (a, b ++ suf) := by
  rw [splitLastChar] at h ⊢
  cases hrev : splitFirstChar c l.reverse with
  | none => rw [hrev] at h; simp at h
  | some p =>
      obtain ⟨a', b'⟩ := p
      rw [hrev] at h
      simp only [Option.some.injEq, Prod.mk.injEq] at h
      obtain ⟨ha, hb⟩ := h
      have hsufr : c ∉ suf.reverse := by simpa using hsuf
      rw [List.reverse_append,
        splitFirstChar_append_of_not_mem c suf.reverse l.reverse hsufr, hrev]
      simp only []
      rw [List.reverse_append]
      rw [ha, List.reverse_reverse, hb]

theorem string_eq_empty_iff (s : String) : s = "" ↔ s.data = [] := by
  constructor
  · intro h; rw [h]
  · intro h
    cases s with
    | mk d => cases h; rfl

/-- C8.  `_normalize_asset_path` and `_normalize_blueprint_class` are total
functions (they are Lean functions, defined on every string, including the
empty, non-absolute, and already-suffixed ones) and idempotent:
`f (f x) = f x` for every input string `x`. -/
theorem c8_normalizers_idempotent :
    (∀ x : String, normalize_asset_path (normalize_asset_path x) =
      normalize_asset_path x) ∧
    (∀ x : String, normalize_blueprint_class (normalize_blueprint_class x) =
      normalize_blueprint_class x) := by
  constructor
  · intro x
    by_cases hemp : x = ""
    · subst hemp; simp [normalize_asset_path]
    · by_cases hslash : startsWithChar '/' x.data = true
      · cases hsplit : splitLastChar '/' x.data with
        | none =>
            have hval : normalize_asset_path x = x := by
              simp [normalize_asset_path, hemp, hslash, hsplit]
            rw [hval, hval]
        | some p =>
            obtain ⟨pre, fin⟩ := p
            by_cases hdot : ('.' : Char) ∈ fin
            · have hval : normalize_asset_path x = x := by
                simp [normalize_asset_path, hemp, hslash, hsplit, hdot]
              rw [hval, hval]
            · have hval : normalize_asset_path x = ⟨x.data ++ '.' :: fin⟩ := by
                simp [normalize_asset_path, hemp, hslash, hsplit, hdot]
              rw [hval]
              have hxne : x.data ≠ [] := fun h => hemp ((string_eq_empty_iff x).mpr h)
              have hremp : ¬ (⟨x.data ++ '.' :: fin⟩ : String) = "" := by
                rw [string_eq_empty_iff]
                intro h
                exact hxne (List.append_eq_nil.mp h).1
              have hrslash :
                  startsWithChar '/' ((⟨x.data ++ '.' :: fin⟩ : String).data) = true := by
                show startsWithChar '/' (x.data ++ '.' :: fin) = true
                cases hx : x.data with
                | nil => exact absurd hx hxne
                | cons d rest =>
                    rw [hx] at hslash
                    simpa [startsWithChar] using hslash
              have hsep : ('/' : Char) ∉ '.' :: fin := by
                intro h
                rcases List.mem_cons.mp h with h1 | h1
                · exact absurd h1 (by decide)
                · exact (splitLastChar_some '/' x.data pre fin hsplit).2 h1
              have hsplit2 :
                  splitLastChar '/' ((⟨x.data ++ '.' :: fin⟩ : String).data) =
                    some (pre, fin ++ '.' :: fin) := by
                show splitLastChar '/' (x.data ++ '.' :: fin) = _
                exact splitLastChar_append_of_not_mem '/' x.data ('.' :: fin)
                  pre fin hsplit hsep
              have hdm2 : ('.' : Char) ∈ fin ++ '.' :: fin :=
                List.mem_append_right _ (List.mem_cons_self _ _)
              simp [normalize_asset_path, hremp, hrslash, hsplit2, hdm2]
      · have hval : normalize_asset_path x = x := by
          simp [normalize_asset_path, hemp, hslash]
        rw [hval, hval]
  · intro x
    have happly : ∀ y : List Char,
        normalize_blueprint_class ⟨y ++ "_C".data⟩ = ⟨y ++ "_C".data⟩ := by
      intro y
      have hne : ¬ (⟨y ++ "_C".data⟩ : String) = "" := by
        rw [string_eq_empty_iff]
        simp
      have hsuf : endsWithSeq "_C".data ((⟨y ++ "_C".data⟩ : String).data) = true := by
        show endsWithSeq "_C".data (y ++ "_C".data) = true
        rw [endsWithSeq, List.reverse_append]
        exact isPrefixOf_self_append _ _
      simp [normalize_blueprint_class, hne, hsuf]
    have key : normalize_blueprint_class x = x ∨
        normalize_blueprint_class x = ⟨x.data ++ "_C".data⟩ := by
      rw [normalize_blueprint_class]
      dsimp only
      split_ifs <;> first | exact Or.inl rfl | exact Or.inr rfl
    rcases key with h | h
    · rw [h, h]
    · rw [h]
      exact happly x.data

/-! ### Properties of the call-syntax parser -/

theorem splitOnChar_ne_nil (c : Char) : ∀ (l : List Char), splitOnChar c l ≠ [] := by
  intro l
  induction l with
  | nil => simp [splitOnChar]
  | cons d rest ih =>
      rw [splitOnChar]
      cases h : splitOnChar c rest with
      | nil => simp
      | cons h' t' => by_cases hd : d = c <;> simp [hd]

theorem splitOnChar_length_of_startsWith (c : Char) (l : List Char)
    (h : startsWithChar c l = true) : 2 ≤ (splitOnChar c l).length := by
  cases l with
  | nil => simp [startsWithChar] at h
  | cons d rest =>
      have hd : d = c := by simpa [startsWithChar] using h
      rw [splitOnChar]
      cases hrest : splitOnChar c rest with
      | nil => exact absurd hrest (splitOnChar_ne_nil c rest)
      | cons h' t' => simp [hd]

theorem joinChar_append_singleton (c : Char) :
    ∀ (xs : List (List Char)) (y : List Char), xs ≠ [] →
      joinChar c (xs ++ [y]) = joinChar c xs ++ c :: y := by
  intro xs
  induction xs with
  | nil => intro y h; exact absurd rfl h
  | cons a as ih =>
      intro y _
      cases as with
      | nil => simp [joinChar]
      | cons b bs =>
          have hih := ih y (by simp)
          have h1 : joinChar c ((a :: b :: bs) ++ [y]) =
              a ++ c :: joinChar c ((b :: bs) ++ [y]) := rfl
          have h2 : joinChar c (a :: b :: bs) = a ++ c :: joinChar c (b :: bs) := rfl
          rw [h1, hih, h2]
          simp

/-- C6.  For every call string containing `"::"` whose target (the text
before the first `"::"`) starts with `"/"`, `_parse_call_syntax` returns the
Asset variant.  When the last `/`-delimited segment of the target splits on
`.` into more than two parts, the first two parts joined by `.` replace that
segment to form the asset target path and the remaining parts rejoined with
`.` form the subobject; otherwise the target is used as-is with no
subobject.  (`splitFirstSeq`/`splitOnChar`/`joinChar` are the Python
`split`/`join` primitives; see `splitFirstChar_some` and friends for their
characterizations.) -/
theorem c6_asset_parse (s : String) (t f : List Char)
    (hsplit : splitFirstSeq "::".data s.data = some (t, f))
    (hslash : startsWithChar '/' t = true) :
    (∃ tgt fn so, parse_call s = .asset tgt fn so) ∧
    (2 < (splitOnChar '.' ((splitOnChar '/' t).getLastD [])).length →
      parse_call s = .asset
        ⟨joinChar '/' ((splitOnChar '/' t).dropLast ++
          [(splitOnChar '.' ((splitOnChar '/' t).getLastD [])).getD 0 [] ++
            '.' :: (splitOnChar '.' ((splitOnChar '/' t).getLastD [])).getD 1 []])⟩
        ⟨f⟩
        (some ⟨joinChar '.'
          ((splitOnChar '.' ((splitOnChar '/' t).getLastD [])).drop 2)⟩)) ∧
    (¬ 2 < (splitOnChar '.' ((splitOnChar '/' t).getLastD [])).length →
      parse_call s = .asset ⟨t⟩ ⟨f⟩ Option.none) := by
  have hbase : parse_call s =
      (if 2 < (splitOnChar '.' ((splitOnChar '/' t).getLastD [])).length then
        CallTarget.asset
          ⟨joinChar '/' (splitOnChar '/' t).dropLast ++ '/' ::
            ((splitOnChar '.' ((splitOnChar '/' t).getLastD [])).getD 0 [] ++
              '.' :: (splitOnChar '.' ((splitOnChar '/' t).getLastD [])).getD 1 [])⟩
          ⟨f⟩
          (some ⟨joinChar '.'
            ((splitOnChar '.' ((splitOnChar '/' t).getLastD [])).drop 2)⟩)
      else CallTarget.asset ⟨t⟩ ⟨f⟩ Option.none) := by
    rw [parse_call, hsplit]
    dsimp only
    rw [if_pos hslash]
  have hjoin : joinChar '/' ((splitOnChar '/' t).dropLast ++
        [(splitOnChar '.' ((splitOnChar '/' t).getLastD [])).getD 0 [] ++
          '.' :: (splitOnChar '.' ((splitOnChar '/' t).getLastD [])).getD 1 []]) =
      joinChar '/' (splitOnChar '/' t).dropLast ++ '/' ::
        ((splitOnChar '.' ((splitOnChar '/' t).getLastD [])).getD 0 [] ++
          '.' :: (splitOnChar '.' ((splitOnChar '/' t).getLastD [])).getD 1 []) := by
    apply joinChar_append_singleton
    have h2 := splitOnChar_length_of_startsWith '/' t hslash
    intro hnil
    have := congrArg List.length hnil
    rw [List.length_dropLast] at this
    simp at this
    omega
  refine ⟨?_, ?_, ?_⟩
  · rw [hbase]
    by_cases hlen : 2 < (splitOnChar '.' ((splitOnChar '/' t).getLastD [])).length
    · rw [if_pos hlen]; exact ⟨_, _, _, rfl⟩
    · rw [if_neg hlen]; exact ⟨_, _, _, rfl⟩
  · intro hlen
    rw [hbase, if_pos hlen, hjoin]
  · intro hlen
    rw [hbase, if_neg hlen]

/-- C7.  For every call string: if it contains `"::"`, the parser returns
the Static or Asset variant (never Actor); if it contains `.` but not
`"::"`, it returns the Actor variant with `function` the text after the
last `.` and, when the remaining prefix itself contains a `.`, `actor` the
text before the prefix's first `.` and `component` the rest, else no
component; if it contains neither separator, it returns the Error variant
with a non-empty message.  (Containment of `"::"` is `isSome` of
`splitFirstSeq`; the last/first-dot slices are `splitLastChar`/
`splitFirstChar`, characterized by `splitLastChar_some` and
`splitFirstChar_some`.) -/
theorem c7_parser_variants (s : String) :
    ((splitFirstSeq "::".data s.data).isSome = true →
        (∃ t f, parse_call s = .static t f) ∨
        (∃ t f so, parse_call s = .asset t f so)) ∧
    (splitFirstSeq "::".data s.data = Option.none →
      ∀ tp fn : List Char, splitLastChar '.' s.data = some (tp, fn) →
        ((∀ a c : List Char, splitFirstChar '.' tp = some (a, c) →
            parse_call s = .actor ⟨a⟩ ⟨fn⟩ (some ⟨c⟩)) ∧
         (splitFirstChar '.' tp = Option.none →
            parse_call s = .actor ⟨tp⟩ ⟨fn⟩ Option.none))) ∧
    (splitFirstSeq "::".data s.data = Option.none →
      splitLastChar '.' s.data = Option.none →
        ∃ m : String, parse_call s = .error m ∧ m ≠ "") := by
  refine ⟨?_, ?_, ?_⟩
  · intro hsome
    cases hsplit : splitFirstSeq "::".data s.data with
    | none => rw [hsplit] at hsome; simp at hsome
    | some p =>
        obtain ⟨t, f⟩ := p
        by_cases hslash : startsWithChar '/' t = true
        · right
          exact (c6_asset_parse s t f hsplit hslash).1
        · left
          refine ⟨⟨t⟩, ⟨f⟩, ?_⟩
          rw [parse_call, hsplit]
          dsimp only
          rw [if_neg hslash]
  · intro hnone tp fn hlast
    constructor
    · intro a c hfirst
      rw [parse_call, hnone]
      dsimp only
      rw [hlast]
      dsimp only
      rw [hfirst]
    · intro hfirst
      rw [parse_call, hnone]
      dsimp only
      rw [hlast]
      dsimp only
      rw [hfirst]
  · intro hnone hlast
    refine ⟨"Invalid call syntax '" ++ s ++
      "'. Use Class::Function for static, Actor.Function for instance, or /Asset/Path::Function for assets.", ?_, ?_⟩
    · rw [parse_call, hnone]
      dsimp only
      rw [hlast]
    · intro h
      have h := (string_eq_empty_iff _).mp h
      have : ("Invalid call syntax '" ++ s ++
          "'. Use Class::Function for static, Actor.Function for instance, or /Asset/Path::Function for assets.").data =
          "Invalid call syntax '".data ++ s.data ++
          "'. Use Class::Function for static, Actor.Function for instance, or /Asset/Path::Function for assets.".data := by
        simp [String.data_append]
      rw [this] at h
      simp at h

/-- Witness for C6: the spec's example
`"/Game/Pkg/Name.Name.Sub::Func"` parses to
`Asset{target:"/Game/Pkg/Name.Name", function:"Func", subobject:"Sub"}`. -/
theorem c6_asset_parse_witness :
    splitFirstSeq "::".data "/Game/Pkg/Name.Name.Sub::Func".data =
      some ("/Game/Pkg/Name.Name.Sub".data, "Func".data) ∧
    startsWithChar '/' "/Game/Pkg/Name.Name.Sub".data = true ∧
    parse_call "/Game/Pkg/Name.Name.Sub::Func" =
      .asset "/Game/Pkg/Name.Name" "Func" (some "Sub") := by
  refine ⟨by decide, by decide, ?_⟩
  have h := (c6_asset_parse "/Game/Pkg/Name.Name.Sub::Func"
    "/Game/Pkg/Name.Name.Sub".data "Func".data (by decide) (by decide)).2.1
    (by decide)
  rw [h]
  decide

/-- Witness for C7, at the spec's examples: `"A::B.c"` (contains both
separators) is Static/Asset, never Actor; `"Actor.Comp.Func"` and
`"Actor.Func"` are Actor with and without a component; `"NoSeparator"` is an
Error with a non-empty message. -/
theorem c7_parser_variants_witness :
    ((∃ t f, parse_call "A::B.c" = .static t f) ∨
     (∃ t f so, parse_call "A::B.c" = .asset t f so)) ∧
    parse_call "Actor.Comp.Func" = .actor "Actor" "Func" (some "Comp") ∧
    parse_call "Actor.Func" = .actor "Actor" "Func" Option.none ∧
    (∃ m, parse_call "NoSeparator" = .error m ∧ m ≠ "") := by
  refine ⟨?_, ?_, ?_, ?_⟩
  · exact (c7_parser_variants "A::B.c").1 (by decide)
  · have h := ((c7_parser_variants "Actor.Comp.Func").2.1 (by decide)
      "Actor.Comp".data "Func".data (by decide)).1 "Actor".data "Comp".data
      (by decide)
    rw [h]
  · have h := ((c7_parser_variants "Actor.Func").2.1 (by decide)
      "Actor".data "Func".data (by decide)).2 (by decide)
    rw [h]
  · exact (c7_parser_variants "NoSeparator").2.2 (by decide) (by decide)

/-! ### Hex color literals -/

theorem hexDigitVal_le (c : Char) (v : ℕ) (h : hexDigitVal c = some v) :
    v ≤ 15 := by
  rw [hexDigitVal] at h
  split_ifs at h with h1 h2 h3
  · obtain ⟨hl, hr⟩ := h1
    have hr' : c.toNat ≤ 57 := hr
    have h0 : '0'.toNat = 48 := rfl
    injection h with h'
    omega
  · obtain ⟨hl, hr⟩ := h2
    have hr' : c.toNat ≤ 102 := hr
    have h0 : 'a'.toNat = 97 := rfl
    injection h with h'
    omega
  · obtain ⟨hl, hr⟩ := h3
    have hr' : c.toNat ≤ 70 := hr
    have h0 : 'A'.toNat = 65 := rfl
    injection h with h'
    omega

theorem hexPairVal_eq (c1 c2 : Char) (v1 v2 : ℕ)
    (h1 : hexDigitVal c1 = some v1) (h2 : hexDigitVal c2 = some v2) :
    hexPairVal c1 c2 = some (16 * v1 + v2) := by
  rw [hexPairVal, h1, h2]

theorem hexChannel_bounds (v1 v2 : ℕ) (h1 : v1 ≤ 15) (h2 : v2 ≤ 15) :
    0 ≤ ((16 * v1 + v2 : ℕ) : ℚ) / 255 ∧ ((16 * v1 + v2 : ℕ) : ℚ) / 255 ≤ 1 := by
  constructor
  · positivity
  · rw [div_le_one (by norm_num)]
    have : (16 * v1 + v2 : ℕ) ≤ 255 := by omega
    exact_mod_cast this

theorem hexColorChannels_six (c1 c2 c3 c4 c5 c6 : Char) (v1 v2 v3 v4 v5 v6 : ℕ)
    (h1 : hexDigitVal c1 = some v1) (h2 : hexDigitVal c2 = some v2)
    (h3 : hexDigitVal c3 = some v3) (h4 : hexDigitVal c4 = some v4)
    (h5 : hexDigitVal c5 = some v5) (h6 : hexDigitVal c6 = some v6) :
    hexColorChannels [c1, c2, c3, c4, c5, c6] =
      some (((16 * v1 + v2 : ℕ) : ℚ) / 255, ((16 * v3 + v4 : ℕ) : ℚ) / 255,
        ((16 * v5 + v6 : ℕ) : ℚ) / 255, 1) := by
  rw [hexColorChannels]
  rw [hexPairVal_eq c1 c2 v1 v2 h1 h2, hexPairVal_eq c3 c4 v3 v4 h3 h4,
    hexPairVal_eq c5 c6 v5 v6 h5 h6]

theorem hexColorChannels_eight (c1 c2 c3 c4 c5 c6 c7 c8 : Char)
    (v1 v2 v3 v4 v5 v6 v7 v8 : ℕ)
    (h1 : hexDigitVal c1 = some v1) (h2 : hexDigitVal c2 = some v2)
    (h3 : hexDigitVal c3 = some v3) (h4 : hexDigitVal c4 = some v4)
    (h5 : hexDigitVal c5 = some v5) (h6 : hexDigitVal c6 = some v6)
    (h7 : hexDigitVal c7 = some v7) (h8 : hexDigitVal c8 = some v8) :
    hexColorChannels [c1, c2, c3, c4, c5, c6, c7, c8] =
      some (((16 * v1 + v2 : ℕ) : ℚ) / 255, ((16 * v3 + v4 : ℕ) : ℚ) / 255,
        ((16 * v5 + v6 : ℕ) : ℚ) / 255, ((16 * v7 + v8 : ℕ) : ℚ) / 255) := by
  rw [hexColorChannels]
  rw [hexPairVal_eq c1 c2 v1 v2 h1 h2, hexPairVal_eq c3 c4 v3 v4 h3 h4,
    hexPairVal_eq c5 c6 v5 v6 h5 h6]
  dsimp only
  rw [hexPairVal_eq c7 c8 v7 v8 h7 h8]

/-- C9.  In string-normalization encoding mode every `#RRGGBB` or
`#RRGGBBAA` hex literal encodes to a Color whose channels each equal the
corresponding hex pair divided by 255 and lie in `[0,1]`, with alpha
defaulting to `1.0` for the 6-digit form (for any property hint). -/
theorem c9_hex_color_encoding :
    (∀ (hint : String) (c1 c2 c3 c4 c5 c6 : Char) (v1 v2 v3 v4 v5 v6 : ℕ),
      hexDigitVal c1 = some v1 → hexDigitVal c2 = some v2 →
      hexDigitVal c3 = some v3 → hexDigitVal c4 = some v4 →
      hexDigitVal c5 = some v5 → hexDigitVal c6 = some v6 →
      normalize_property_value (.str ⟨['#', c1, c2, c3, c4, c5, c6]⟩) hint =
        some (.colorLit (((16 * v1 + v2 : ℕ) : ℚ) / 255)
          (((16 * v3 + v4 : ℕ) : ℚ) / 255) (((16 * v5 + v6 : ℕ) : ℚ) / 255) 1) ∧
      (0 ≤ ((16 * v1 + v2 : ℕ) : ℚ) / 255 ∧ ((16 * v1 + v2 : ℕ) : ℚ) / 255 ≤ 1) ∧
      (0 ≤ ((16 * v3 + v4 : ℕ) : ℚ) / 255 ∧ ((16 * v3 + v4 : ℕ) : ℚ) / 255 ≤ 1) ∧
      (0 ≤ ((16 * v5 + v6 : ℕ) : ℚ) / 255 ∧ ((16 * v5 + v6 : ℕ) : ℚ) / 255 ≤ 1)) ∧
    (∀ (hint : String) (c1 c2 c3 c4 c5 c6 c7 c8 : Char)
        (v1 v2 v3 v4 v5 v6 v7 v8 : ℕ),
      hexDigitVal c1 = some v1 → hexDigitVal c2 = some v2 →
      hexDigitVal c3 = some v3 → hexDigitVal c4 = some v4 →
      hexDigitVal c5 = some v5 → hexDigitVal c6 = some v6 →
      hexDigitVal c7 = some v7 → hexDigitVal c8 = some v8 →
      normalize_property_value (.str ⟨['#', c1, c2, c3, c4, c5, c6, c7, c8]⟩)
          hint =
        some (.colorLit (((16 * v1 + v2 : ℕ) : ℚ) / 255)
          (((16 * v3 + v4 : ℕ) : ℚ) / 255) (((16 * v5 + v6 : ℕ) : ℚ) / 255)
          (((16 * v7 + v8 : ℕ) : ℚ) / 255)) ∧
      (0 ≤ ((16 * v7 + v8 : ℕ) : ℚ) / 255 ∧ ((16 * v7 + v8 : ℕ) : ℚ) / 255 ≤ 1)) := by
  constructor
  · intro hint c1 c2 c3 c4 c5 c6 v1 v2 v3 v4 v5 v6 h1 h2 h3 h4 h5 h6
    refine ⟨?_,
      hexChannel_bounds v1 v2 (hexDigitVal_le c1 v1 h1) (hexDigitVal_le c2 v2 h2),
      hexChannel_bounds v3 v4 (hexDigitVal_le c3 v3 h3) (hexDigitVal_le c4 v4 h4),
      hexChannel_bounds v5 v6 (hexDigitVal_le c5 v5 h5) (hexDigitVal_le c6 v6 h6)⟩
    rw [normalize_property_value]
    dsimp only
    rw [if_pos (by simp [startsWithChar])]
    rw [show (⟨['#', c1, c2, c3, c4, c5, c6]⟩ : String).data.tail =
      [c1, c2, c3, c4, c5, c6] from rfl]
    rw [hexColorChannels_six c1 c2 c3 c4 c5 c6 v1 v2 v3 v4 v5 v6 h1 h2 h3 h4 h5 h6]
  · intro hint c1 c2 c3 c4 c5 c6 c7 c8 v1 v2 v3 v4 v5 v6 v7 v8 h1 h2 h3 h4 h5 h6 h7 h8
    refine ⟨?_,
      hexChannel_bounds v7 v8 (hexDigitVal_le c7 v7 h7) (hexDigitVal_le c8 v8 h8)⟩
    rw [normalize_property_value]
    dsimp only
    rw [if_pos (by simp [startsWithChar])]
    rw [show (⟨['#', c1, c2, c3, c4, c5, c6, c7, c8]⟩ : String).data.tail =
      [c1, c2, c3, c4, c5, c6, c7, c8] from rfl]
    rw [hexColorChannels_eight c1 c2 c3 c4 c5 c6 c7 c8 v1 v2 v3 v4 v5 v6 v7 v8
      h1 h2 h3 h4 h5 h6 h7 h8]

/-- Witness for C9: `"#FF0000"` encodes to `Color{r:1,g:0,b:0,a:1}` and
`"#FF000080"` to a Color with alpha `128/255`, which is within `0.01` of
`0.502`. -/
theorem c9_hex_color_encoding_witness :
    normalize_property_value (.str "#FF0000") "" = some (.colorLit 1 0 0 1) ∧
    normalize_property_value (.str "#FF000080") "" =
      some (.colorLit 1 0 0 (128 / 255)) ∧
    |(128 / 255 : ℚ) - 502 / 1000| ≤ 1 / 100 := by
  refine ⟨?_, ?_, by rw [abs_le]; norm_num⟩
  · have h := (c9_hex_color_encoding.1 "" 'F' 'F' '0' '0' '0' '0' 15 15 0 0 0 0
      (by decide) (by decide) (by decide) (by decide) (by decide) (by decide)).1
    rw [show ("#FF0000" : String) = ⟨['#', 'F', 'F', '0', '0', '0', '0']⟩ from rfl]
    rw [h]
    norm_num
  · have h := (c9_hex_color_encoding.2 "" 'F' 'F' '0' '0' '0' '0' '8' '0'
      15 15 0 0 0 0 8 0 (by decide) (by decide) (by decide) (by decide)
      (by decide) (by decide) (by decide) (by decide)).1
    rw [show ("#FF000080" : String) = ⟨['#', 'F', 'F', '0', '0', '0', '0', '8', '0']⟩
      from rfl]
    rw [h]
    norm_num

/-! ### The two mapping/sequence encoders (C3, C4) -/

theorem hasKey_of_getNum (k : String) (xs : List (String × PyVal)) (q : ℚ)
    (h : getNum k xs = some q) : hasKey k xs = true := by
  rw [getNum] at h
  rw [hasKey]
  cases ha : alistGet k xs with
  | none => rw [ha] at h; simp at h
  | some v => simp [ha]

theorem numsOf_length : ∀ (xs : List PyVal) (vs : List ℚ),
    numsOf xs = some vs → xs.length = vs.length := by
  intro xs
  induction xs with
  | nil => intro vs h; rw [numsOf] at h; injection h with h'; rw [← h']; rfl
  | cons v rest ih =>
      intro vs h
      rw [numsOf] at h
      cases hv : pyNum v with
      | none => rw [hv] at h; simp at h
      | some q =>
          cases hr : numsOf rest with
          | none => rw [hv, hr] at h; simp at h
          | some r =>
              rw [hv, hr] at h
              injection h with h'
              rw [← h']
              simp [ih r hr]

/-- Counterexample for C3.  The claim says a mapping containing any one of
`pitch`/`yaw`/`roll` (and not matching the Vector or Color key rules)
encodes to a Rotator, giving `{"yaw": 90} ↦ Rotator{pitch:0,yaw:90,roll:0}`;
but the TypedValue encoder `_set_property_value` requires all three keys, so
`{"yaw": 90}` encodes to a Struct (tag 12), not a Rotator (tag 7). -/
theorem c3_rotator_anykey_counterexample :
    (set_property_value (.dict [("yaw", .int 90)])).map PropVal.ptype =
      some 12 ∧
    (set_property_value (.dict [("yaw", .int 90)])).map PropVal.ptype ≠
      some 7 := by
  constructor <;> decide

/-- C3 (amended).  The any-of rule with zero defaults holds for the
string-normalization encoder `_normalize_property_value`: a mapping that
fails its Color (`r,g,b`) and Vector (`x,y,z`) key rules and contains any of
`pitch`/`yaw`/`roll` normalizes to a Rotator literal whose missing
components default to 0.  The TypedValue encoder `_set_property_value`
instead encodes a mapping as a Rotator exactly when all three keys
`pitch`, `yaw`, `roll` are present (after its Vector rule fails); a mapping
with only some of them (failing the Vector and Color rules too) encodes as
a Struct. -/
theorem c3_rotator_dict_encoding_amended :
    (∀ (xs : List (String × PyVal)) (hint : String) (p y r : ℚ),
      ¬ (hasKey "r" xs && hasKey "g" xs && hasKey "b" xs) = true →
      ¬ (hasKey "x" xs && hasKey "y" xs && hasKey "z" xs) = true →
      (hasKey "pitch" xs || hasKey "yaw" xs || hasKey "roll" xs) = true →
      getNumD "pitch" 0 xs = some p → getNumD "yaw" 0 xs = some y →
      getNumD "roll" 0 xs = some r →
      normalize_property_value (.dict xs) hint = some (.rotatorLit p y r)) ∧
    (∀ (xs : List (String × PyVal)) (p y r : ℚ),
      ¬ (hasKey "x" xs && hasKey "y" xs && hasKey "z" xs &&
          xs.length == 3) = true →
      getNum "pitch" xs = some p → getNum "yaw" xs = some y →
      getNum "roll" xs = some r →
      set_property_value (.dict xs) = some (pvRotator p y r)) ∧
    (∀ (xs : List (String × PyVal)) (pv : PropVal),
      (hasKey "pitch" xs || hasKey "yaw" xs || hasKey "roll" xs) = true →
      ¬ (hasKey "pitch" xs && hasKey "yaw" xs && hasKey "roll" xs) = true →
      ¬ (hasKey "x" xs && hasKey "y" xs && hasKey "z" xs &&
          xs.length == 3) = true →
      ¬ (hasKey "r" xs && hasKey "g" xs && hasKey "b" xs) = true →
      set_property_value (.dict xs) = some pv → pv.ptype = 12) := by
  refine ⟨?_, ?_, ?_⟩
  · intro xs hint p y r hcol hvec hany hp hy hr
    rw [normalize_property_value]
    rw [if_neg hcol, if_neg hvec, if_pos hany, hp, hy, hr]
  · intro xs p y r hvec hp hy hr
    have hkeys : (hasKey "pitch" xs && hasKey "yaw" xs && hasKey "roll" xs) = true := by
      simp [hasKey_of_getNum "pitch" xs p hp, hasKey_of_getNum "yaw" xs y hy,
        hasKey_of_getNum "roll" xs r hr]
    rw [set_property_value]
    rw [if_neg hvec, if_pos hkeys, hp, hy, hr]
  · intro xs pv _hany hnotall hvec hcol henc
    rw [set_property_value, if_neg hvec, if_neg hnotall, if_neg hcol] at henc
    cases hsv : setStructValues xs with
    | none => rw [hsv] at henc; simp at henc
    | some svs =>
        rw [hsv] at henc
        injection henc with h'
        rw [← h']
        rfl

/-- Witness for C3: `{"pitch":1,"yaw":2,"roll":3}` encodes to a Rotator
TypedValue; `{"yaw":90}` encodes to a Struct (tag 12) under the TypedValue
encoder but to the Rotator literal `(Pitch=0,Yaw=90,Roll=0)` under the
string-normalization encoder. -/
theorem c3_rotator_dict_encoding_amended_witness :
    set_property_value
        (.dict [("pitch", .int 1), ("yaw", .int 2), ("roll", .int 3)]) =
      some (pvRotator 1 2 3) ∧
    set_property_value (.dict [("yaw", .int 90)]) =
      some (pvStruct [("yaw", pvInt 90)]) ∧
    (pvStruct [("yaw", pvInt 90)]).ptype = 12 ∧
    normalize_property_value (.dict [("yaw", .int 90)]) "" =
      some (.rotatorLit 0 90 0) := by
  refine ⟨?_, by rfl, ?_, ?_⟩
  · exact c3_rotator_dict_encoding_amended.2.1
      [("pitch", .int 1), ("yaw", .int 2), ("roll", .int 3)] 1 2 3
      (by decide) (by decide) (by decide) (by decide)
  · exact c3_rotator_dict_encoding_amended.2.2 [("yaw", .int 90)]
      (pvStruct [("yaw", pvInt 90)]) (by decide) (by decide) (by decide)
      (by decide) (by rfl)
  · exact c3_rotator_dict_encoding_amended.1 [("yaw", .int 90)] "" 0 90 0
      (by decide) (by decide) (by decide) (by decide) (by decide) (by decide)

/-- Counterexample for C4.  The claim says every 4-element numeric sequence
encodes as an RGBA Color; but the TypedValue encoder `_set_property_value`
(cited at src/services/agentbridge.py:1758-1766) encodes every sequence as
an Array (tag 13), never a Color (tag 9): `[1, 0, 0, 0]` gets tag 13. -/
theorem c4_sequence_encoder_counterexample :
    (set_property_value (.list [.int 1, .int 0, .int 0, .int 0])).map
      PropVal.ptype = some 13 ∧
    (set_property_value (.list [.int 1, .int 0, .int 0, .int 0])).map
      PropVal.ptype ≠ some 9 := by
  constructor <;> decide

/-- C4 (amended).  The hint rules hold for the string-normalization encoder
`_normalize_property_value`: a 3-element numeric sequence with a hint
containing `"color"` encodes as RGB with alpha 1.0; with a hint containing
`"rotation"`/`"rotator"` (and not `"color"`) as `{pitch,yaw,roll}`
positionally; with neither (in particular with no hint) as a Vector
`{x,y,z}`; and every 4-element numeric sequence encodes as an RGBA Color
with the fourth element as alpha.  The TypedValue encoder
`_set_property_value` instead encodes every sequence — of any length, hint
or not — as an Array of recursively encoded elements. -/
theorem c4_sequence_hint_encoding_amended :
    (∀ (xs : List PyVal) (hint : String) (v0 v1 v2 : ℚ),
      numsOf xs = some [v0, v1, v2] →
      strContains (asciiLower hint) "color" = true →
      normalize_property_value (.list xs) hint = some (.colorLit v0 v1 v2 1)) ∧
    (∀ (xs : List PyVal) (hint : String) (v0 v1 v2 : ℚ),
      numsOf xs = some [v0, v1, v2] →
      ¬ strContains (asciiLower hint) "color" = true →
      (strContains (asciiLower hint) "rotation" ||
        strContains (asciiLower hint) "rotator") = true →
      normalize_property_value (.list xs) hint = some (.rotatorLit v0 v1 v2)) ∧
    (∀ (xs : List PyVal) (hint : String) (v0 v1 v2 : ℚ),
      numsOf xs = some [v0, v1, v2] →
      ¬ strContains (asciiLower hint) "color" = true →
      ¬ (strContains (asciiLower hint) "rotation" ||
          strContains (asciiLower hint) "rotator") = true →
      normalize_property_value (.list xs) hint = some (.vectorLit v0 v1 v2)) ∧
    (∀ (xs : List PyVal) (hint : String) (v0 v1 v2 v3 : ℚ),
      numsOf xs = some [v0, v1, v2, v3] →
      normalize_property_value (.list xs) hint =
        some (.colorLit v0 v1 v2 v3)) ∧
    (∀ (xs : List PyVal) (pvs : List PropVal),
      setArrayValues xs = some pvs →
      set_property_value (.list xs) = some (pvArray pvs)) := by
  have hlen3 : ∀ (xs : List PyVal) (v0 v1 v2 : ℚ),
      numsOf xs = some [v0, v1, v2] → (xs.length == 3) = true := by
    intro xs v0 v1 v2 h
    simp [numsOf_length xs [v0, v1, v2] h]
  have hlen4 : ∀ (xs : List PyVal) (v0 v1 v2 v3 : ℚ),
      numsOf xs = some [v0, v1, v2, v3] → (xs.length == 3) = false ∧
        (xs.length == 4) = true := by
    intro xs v0 v1 v2 v3 h
    simp [numsOf_length xs [v0, v1, v2, v3] h]
  refine ⟨?_, ?_, ?_, ?_, ?_⟩
  · intro xs hint v0 v1 v2 hnums hcol
    rw [normalize_property_value]
    rw [if_pos (hlen3 xs v0 v1 v2 hnums), hnums]
    dsimp only
    rw [if_pos hcol]
  · intro xs hint v0 v1 v2 hnums hcol hrot
    rw [normalize_property_value]
    rw [if_pos (hlen3 xs v0 v1 v2 hnums), hnums]
    dsimp only
    rw [if_neg hcol, if_pos hrot]
  · intro xs hint v0 v1 v2 hnums hcol hrot
    rw [normalize_property_value]
    rw [if_pos (hlen3 xs v0 v1 v2 hnums), hnums]
    dsimp only
    rw [if_neg hcol, if_neg hrot]
  · intro xs hint v0 v1 v2 v3 hnums
    rw [normalize_property_value]
    rw [if_neg (by simp [(hlen4 xs v0 v1 v2 v3 hnums).1]),
      if_pos (hlen4 xs v0 v1 v2 v3 hnums).2, hnums]
  · intro xs pvs henc
    rw [set_property_value, henc]

/-- Witness for C4: `[1,0,0]` with a `"LightColor"` hint is an RGB color
literal with alpha 1; with a `"WorldRotation"` hint a rotator literal; with
no hint a vector literal; `[1,0,0,0]` is an RGBA color literal for any
hint; and the TypedValue encoder turns `[1,0,0,0]` into an Array. -/
theorem c4_sequence_hint_encoding_amended_witness :
    normalize_property_value (.list [.int 1, .int 0, .int 0]) "LightColor" =
      some (.colorLit 1 0 0 1) ∧
    normalize_property_value (.list [.int 1, .int 0, .int 0]) "WorldRotation" =
      some (.rotatorLit 1 0 0) ∧
    normalize_property_value (.list [.int 1, .int 0, .int 0]) "" =
      some (.vectorLit 1 0 0) ∧
    normalize_property_value (.list [.int 1, .int 0, .int 0, .int 0]) "" =
      some (.colorLit 1 0 0 0) ∧
    set_property_value (.list [.int 1, .int 0, .int 0, .int 0]) =
      some (pvArray [pvInt 1, pvInt 0, pvInt 0, pvInt 0]) := by
  refine ⟨?_, ?_, ?_, ?_, ?_⟩
  · exact c4_sequence_hint_encoding_amended.1 [.int 1, .int 0, .int 0]
      "LightColor" 1 0 0 (by decide) (by decide)
  · exact c4_sequence_hint_encoding_amended.2.1 [.int 1, .int 0, .int 0]
      "WorldRotation" 1 0 0 (by decide) (by decide) (by decide)
  · exact c4_sequence_hint_encoding_amended.2.2.1 [.int 1, .int 0, .int 0]
      "" 1 0 0 (by decide) (by decide) (by decide)
  · exact c4_sequence_hint_encoding_amended.2.2.2.1
      [.int 1, .int 0, .int 0, .int 0] "" 1 0 0 0 (by decide)
  · exact c4_sequence_hint_encoding_amended.2.2.2.2
      [.int 1, .int 0, .int 0, .int 0]
      [pvInt 1, pvInt 0, pvInt 0, pvInt 0] (by rfl)

/-! ### Dynamic module loading (C2) -/

/-- The catalog tools gathered by the load loop, in request order. -/
def newToolsFor : List String → List String
  | [] => []
  | m :: rest => (alistGet m MODULES).getD [] ++ newToolsFor rest

/-- The load loop activates exactly the requested names that are not in the
pre-loop snapshot of the enabled set and are present in the catalog — in
request order, duplicates included, exactly as the Python loop does. -/
theorem loadLoop_spec (already : List String) : ∀ (req : List String),
    loadLoop already req =
      (req.filter (fun m => !already.contains m && (alistGet m MODULES).isSome),
       req.filter (fun m => !already.contains m && (alistGet m MODULES).isSome),
       newToolsFor (req.filter
         (fun m => !already.contains m && (alistGet m MODULES).isSome))) := by
  intro req
  induction req with
  | nil => rfl
  | cons m rest ih =>
      rw [loadLoop, ih]
      by_cases hc : m ∈ already
      · simp [hc, List.filter_cons]
      · cases hget : alistGet m MODULES with
        | none => simp [hc, hget, List.filter_cons]
        | some ts => simp [hc, hget, List.filter_cons, newToolsFor]

theorem hlm_result_fields (γ : Type) (registry : List (Service γ))
    (req : List String) (st : ServerState γ) :
    (handle_load_modules registry req st).1.total_tools =
      ((handle_load_modules registry req st).2).tool_to_service.length + 1 ∧
    (handle_load_modules registry req st).1.total_modules =
      ((handle_load_modules registry req st).2).enabled_modules.length := by
  rcases hl : loadLoop st.enabled_modules req with ⟨a, b, c⟩
  rw [handle_load_modules, hl]
  dsimp only
  exact ⟨rfl, rfl⟩

theorem hlm_of_loop_nil (γ : Type) (registry : List (Service γ))
    (req : List String) (st : ServerState γ)
    (h : loadLoop st.enabled_modules req = ([], [], [])) :
    (handle_load_modules registry req st).1.loaded_modules = [] ∧
    (handle_load_modules registry req st).1.total_modules =
      st.enabled_modules.length ∧
    (handle_load_modules registry req st).1.total_tools =
      st.tool_to_service.length + 1 := by
  rw [handle_load_modules, h]
  refine ⟨rfl, by simp, rfl⟩

/-- C2.  `loadModules` activates exactly the requested names that are
present in the catalog and not already active, reports them in
`loaded_modules` (names already active or absent are silently skipped, and
a result dict — never an error — is returned, also through the
`tools/call` dispatch); `total_modules` counts the updated enabled list;
and a second call with the same request yields an empty `loaded_modules`
with `total_modules` and `total_tools` unchanged from the first call. -/
theorem c2_load_modules_filter_and_idempotent (γ : Type)
    (registry : List (Service γ)) (st : ServerState γ) (req : List String)
    (msgId : ℤ) :
    (handle_load_modules registry req st).1.loaded_modules =
      req.filter
        (fun m => !st.enabled_modules.contains m &&
          (alistGet m MODULES).isSome) ∧
    ((handle_load_modules registry req st).2).enabled_modules =
      st.enabled_modules ++
        req.filter
          (fun m => !st.enabled_modules.contains m &&
            (alistGet m MODULES).isSome) ∧
    (handle_load_modules registry req st).1.total_modules =
      ((handle_load_modules registry req st).2).enabled_modules.length ∧
    handle_tools_call registry msgId "load_modules"
        (.dict [("modules", .list (req.map PyVal.str))]) st =
      (.response msgId
        { content := [.jsonLoad (handle_load_modules registry req st).1]
          isError := false },
       (handle_load_modules registry req st).2) ∧
    (handle_load_modules registry req
        ((handle_load_modules registry req st).2)).1.loaded_modules = [] ∧
    (handle_load_modules registry req
        ((handle_load_modules registry req st).2)).1.total_modules =
      (handle_load_modules registry req st).1.total_modules ∧
    (handle_load_modules registry req
        ((handle_load_modules registry req st).2)).1.total_tools =
      (handle_load_modules registry req st).1.total_tools := by
  have hstr : stringsOf (req.map PyVal.str) = req := by
    induction req with
    | nil => rfl
    | cons m rest ih => rw [List.map_cons, stringsOf, ih]
  have hmod : modulesArg (.dict [("modules", .list (req.map PyVal.str))]) = req := by
    rw [modulesArg]
    rw [show alistGet "modules" [("modules", PyVal.list (req.map PyVal.str))] =
      some (PyVal.list (req.map PyVal.str)) from rfl]
    exact hstr
  have h1 := loadLoop_spec st.enabled_modules req
  set p1 : String → Bool :=
    fun m => !st.enabled_modules.contains m && (alistGet m MODULES).isSome
    with hp1
  have hfst : (handle_load_modules registry req st).1.loaded_modules =
      req.filter p1 := by
    rw [handle_load_modules, h1]
  have hen : ((handle_load_modules registry req st).2).enabled_modules =
      st.enabled_modules ++ req.filter p1 := by
    rw [handle_load_modules, h1]
  have hmap1 : ((handle_load_modules registry req st).2).tool_to_service =
      (if (req.filter p1).isEmpty then st.tool_to_service
       else buildToolMap (get_filtered_services
         (st.enabled_modules ++ req.filter p1) registry)) := by
    rw [handle_load_modules, h1]
    dsimp only
    by_cases he : (List.filter p1 req).isEmpty = true <;> simp [he]
  have htm := (hlm_result_fields γ registry req st).2
  have htt := (hlm_result_fields γ registry req st).1
  have hdispatch : handle_tools_call registry msgId "load_modules"
        (.dict [("modules", .list (req.map PyVal.str))]) st =
      (.response msgId
        { content := [.jsonLoad (handle_load_modules registry req st).1]
          isError := false },
       (handle_load_modules registry req st).2) := by
    rw [handle_tools_call, if_pos rfl, hmod]
  -- second call: the filter is empty because everything requested that is
  -- in the catalog is now enabled
  have hnil : req.filter
      (fun m => !(st.enabled_modules ++ req.filter p1).contains m &&
        (alistGet m MODULES).isSome) = [] := by
    rw [List.filter_eq_nil_iff]
    intro m hm
    by_cases hcat : (alistGet m MODULES).isSome = true
    · by_cases hen' : m ∈ st.enabled_modules
      · simp [hen']
      · have hmem : m ∈ List.filter p1 req :=
          List.mem_filter.mpr ⟨hm, by simp [hp1, hen', hcat]⟩
        simp [hmem]
    · simp [hcat]
  have h2 := loadLoop_spec (st.enabled_modules ++ req.filter p1) req
  rw [hnil] at h2
  have hsecond : loadLoop ((handle_load_modules registry req st).2).enabled_modules
      req = ([], [], []) := by
    rw [hen, h2]
    rfl
  obtain ⟨hs1, hs2, hs3⟩ := hlm_of_loop_nil γ registry req
    ((handle_load_modules registry req st).2) hsecond
  refine ⟨hfst, hen, htm, hdispatch, hs1, ?_, ?_⟩
  · rw [hs2, htm]
  · rw [hs3, htt]

/-! ### `tools/call` error handling (C1) -/

theorem containsSeq_self_append (pat rest : List Char) :
    containsSeq pat (pat ++ rest) = true := by
  cases pat with
  | nil => cases rest with
    | nil => rfl
    | cons c cs => rw [List.nil_append, containsSeq]; simp
  | cons p ps =>
      rw [List.cons_append, containsSeq]
      simp [isPrefixOf_self_append (p :: ps) rest]

theorem containsSeq_append_of (pat pre l : List Char)
    (h : containsSeq pat l = true) : containsSeq pat (pre ++ l) = true := by
  induction pre with
  | nil => simpa using h
  | cons c cs ih =>
      rw [List.cons_append, containsSeq]
      simp [ih]

theorem get_client_keeps_services (γ : Type) (st : ServerState γ)
    (service_name : String) :
    ((get_client st service_name).2).services = st.services := by
  cases h : alistGet service_name st.clients with
  | some c => simp [get_client, h]
  | none =>
      cases hf : st.services.find? (fun s => s.name = service_name) with
      | none => simp [get_client, h, hf]
      | some svc =>
          cases hc : svc.connectFn st.host st.port with
          | ok c => simp [get_client, h, hf, hc]
          | error e => simp [get_client, h, hf, hc]

/-- C1.  For every `tools/call` whose tool name is not `"load_modules"`:
the dispatch always returns a `_make_response` envelope (never a JSON-RPC
error object, and — being a total function — it never throws); if the name
is absent from the live tool index but belongs to a catalog module (the
first such module, unique when tool names do not collide) that is not
active, the result is `isError = true` with a text that names that module
and contains the exact remediation call `load_modules(modules=["<m>"])`;
if the name belongs to no catalog module, the result is `isError = true`
with the generic `Unknown tool` message; a `connect` exception (or missing
client) is caught inside `_get_client` and surfaces as an `isError = true`
result; and an exception raised by the module's `execute` is caught and
converted to an `isError = true` result carrying its message. -/
theorem c1_tools_call_error_handling (γ : Type) (registry : List (Service γ))
    (msgId : ℤ) (tool_name : String) (args : PyVal) (st : ServerState γ)
    (hname : tool_name ≠ "load_modules") :
    (∃ res : CallResult,
      (handle_tools_call registry msgId tool_name args st).1 =
        .response msgId res) ∧
    (∀ m : String,
      alistGet tool_name st.tool_to_service = Option.none →
      firstModuleFor tool_name = some m →
      m ∉ st.enabled_modules →
      (handle_tools_call registry msgId tool_name args st).1 =
        .response msgId
          { content := [.jsonErr (notLoadedMsg tool_name m)]
            isError := true } ∧
      strContains (notLoadedMsg tool_name m) m = true ∧
      strContains (notLoadedMsg tool_name m)
        ("load_modules(modules=[\"" ++ m ++ "\"])") = true) ∧
    (alistGet tool_name st.tool_to_service = Option.none →
      firstModuleFor tool_name = Option.none →
      (handle_tools_call registry msgId tool_name args st).1 =
        .response msgId
          { content := [.jsonErr ("Unknown tool: " ++ tool_name)]
            isError := true }) ∧
    (∀ svc : String,
      alistGet tool_name st.tool_to_service = some svc →
      (get_client st svc).1 = Option.none →
      (handle_tools_call registry msgId tool_name args st).1 =
        .response msgId
          { content := [.jsonErr (notConnectedMsg svc st.host st.port)]
            isError := true }) ∧
    (∀ (svc : String) (c : γ) (s : Service γ) (e : String),
      alistGet tool_name st.tool_to_service = some svc →
      (get_client st svc).1 = some c →
      st.services.find? (fun x => x.name = svc) = some s →
      s.executeFn c tool_name args = .error e →
      (handle_tools_call registry msgId tool_name args st).1 =
        .response msgId { content := [.jsonErr e], isError := true }) := by
  have hpair : ∀ svc : String, get_client st svc =
      ((get_client st svc).1, (get_client st svc).2) := fun _ => rfl
  refine ⟨?_, ?_, ?_, ?_, ?_⟩
  · rw [handle_tools_call, if_neg hname]
    cases hlk : alistGet tool_name st.tool_to_service with
    | none =>
        dsimp only
        cases hfm : firstModuleFor tool_name with
        | some m => exact ⟨_, rfl⟩
        | none => exact ⟨_, rfl⟩
    | some svc =>
        dsimp only
        rw [hpair svc]
        dsimp only
        cases hc : (get_client st svc).1 with
        | none => exact ⟨_, rfl⟩
        | some c =>
            dsimp only
            cases hf : ((get_client st svc).2).services.find?
                (fun x => x.name = svc) with
            | none => exact ⟨_, rfl⟩
            | some s =>
                dsimp only
                cases hex : s.executeFn c tool_name args with
                | ok r => exact ⟨_, rfl⟩
                | error e => exact ⟨_, rfl⟩
  · intro m hlk hfm _hinactive
    refine ⟨?_, ?_, ?_⟩
    · rw [handle_tools_call, if_neg hname, hlk]
      dsimp only
      rw [hfm]
    · rw [strContains, notLoadedMsg]
      rw [show ("Tool '" ++ tool_name ++ "' is not loaded. Load module '" ++
          m ++ "' first: load_modules(modules=[\"" ++ m ++ "\"])").data =
        ("Tool '" ++ tool_name ++ "' is not loaded. Load module '").data ++
          (m.data ++
            ("' first: load_modules(modules=[\"" ++ m ++ "\"])").data) by
        simp]
      exact containsSeq_append_of m.data _ _ (containsSeq_self_append m.data _)
    · rw [strContains, notLoadedMsg]
      rw [show ("Tool '" ++ tool_name ++ "' is not loaded. Load module '" ++
          m ++ "' first: load_modules(modules=[\"" ++ m ++ "\"])").data =
        ("Tool '" ++ tool_name ++ "' is not loaded. Load module '" ++ m ++
          "' first: ").data ++
          (("load_modules(modules=[\"" ++ m ++ "\"])").data ++ []) by
        simp]
      exact containsSeq_append_of _ _ _ (containsSeq_self_append _ [])
  · intro hlk hfm
    rw [handle_tools_call, if_neg hname, hlk]
    dsimp only
    rw [hfm]
  · intro svc hlk hc
    rw [handle_tools_call, if_neg hname, hlk]
    dsimp only
    rw [hpair svc]
    dsimp only
    rw [hc]
  · intro svc c s e hlk hc hf hex
    have hf' : ((get_client st svc).2).services.find?
        (fun x => x.name = svc) = some s := by
      rw [get_client_keeps_services]
      exact hf
    rw [handle_tools_call, if_neg hname, hlk]
    dsimp only
    rw [hpair svc]
    dsimp only
    rw [hc]
    dsimp only
    rw [hf']
    dsimp only
    rw [hex]

/-- Witness fixtures for C1: a one-service registry whose `execute` always
raises, a variant whose `connect` always raises, and a matching router
state with the `core` module active. -/
def wSvcBoom : Service Unit :=
  { name := "core", tools := [⟨"help"⟩],
    connectFn := fun _ _ => .ok (),
    executeFn := fun _ _ _ => .error "boom" }

def wSvcDown : Service Unit :=
  { name := "core", tools := [⟨"help"⟩],
    connectFn := fun _ _ => .error "down",
    executeFn := fun _ _ _ => .ok "{}" }

def wStateOf (svc : Service Unit) : ServerState Unit :=
  { host := "localhost", port := 50051, enabled_modules := ["core"],
    services := [svc], tool_to_service := [("help", "core")], clients := [] }

/-- Witness for C1: with only `core` active, calling `"tempo_play"` yields
the not-loaded error naming `tempo_sim` with the exact remediation call;
calling `"nonexistent"` yields the generic unknown-tool error; with a
failing backend `connect`, calling `"help"` yields the not-connected
error; and with an `execute` that raises `"boom"`, calling `"help"` yields
an `isError` result carrying `"boom"`. -/
theorem c1_tools_call_error_handling_witness :
    (handle_tools_call [wSvcBoom] 7 "tempo_play" PyVal.none
        (wStateOf wSvcBoom)).1 =
      .response 7
        { content := [.jsonErr (notLoadedMsg "tempo_play" "tempo_sim")]
          isError := true } ∧
    strContains (notLoadedMsg "tempo_play" "tempo_sim")
      "load_modules(modules=[\"tempo_sim\"])" = true ∧
    (handle_tools_call [wSvcBoom] 7 "nonexistent" PyVal.none
        (wStateOf wSvcBoom)).1 =
      .response 7
        { content := [.jsonErr ("Unknown tool: " ++ "nonexistent")]
          isError := true } ∧
    (handle_tools_call [wSvcDown] 7 "help" PyVal.none (wStateOf wSvcDown)).1 =
      .response 7
        { content := [.jsonErr (notConnectedMsg "core" "localhost" 50051)]
          isError := true } ∧
    (handle_tools_call [wSvcBoom] 7 "help" PyVal.none (wStateOf wSvcBoom)).1 =
      .response 7 { content := [.jsonErr "boom"], isError := true } := by
  refine ⟨?_, ?_, ?_, ?_, ?_⟩
  · exact ((c1_tools_call_error_handling Unit [wSvcBoom] 7 "tempo_play"
      PyVal.none (wStateOf wSvcBoom) (by decide)).2.1 "tempo_sim"
      rfl (by decide) (by decide)).1
  · exact ((c1_tools_call_error_handling Unit [wSvcBoom] 7 "tempo_play"
      PyVal.none (wStateOf wSvcBoom) (by decide)).2.1 "tempo_sim"
      rfl (by decide) (by decide)).2.2
  · exact (c1_tools_call_error_handling Unit [wSvcBoom] 7 "nonexistent"
      PyVal.none (wStateOf wSvcBoom) (by decide)).2.2.1 rfl (by decide)
  · exact (c1_tools_call_error_handling Unit [wSvcDown] 7 "help"
      PyVal.none (wStateOf wSvcDown) (by decide)).2.2.2.1 "core" rfl rfl
  · exact (c1_tools_call_error_handling Unit [wSvcBoom] 7 "help"
      PyVal.none (wStateOf wSvcBoom) (by decide)).2.2.2.2 "core" () wSvcBoom
      "boom" rfl rfl rfl rfl

/-! ### Dict and `pyEq` infrastructure for the round-trip claim (C5) -/

/-- Well-formedness of a modelled Python dict: its keys are pairwise
distinct (true of every real Python dict). -/
def keysNodup : List (String × PyVal) → Bool
  | [] => true
  | (k, _) :: rest => !hasKey k rest && keysNodup rest

/-- Every value of the dict is numeric (so Python `float()` succeeds). -/
def allNumeric : List (String × PyVal) → Bool
  | [] => true
  | (_, v) :: rest => (pyNum v).isSome && allNumeric rest

theorem alistGet_eq_none_iff {β : Type} (k : String) :
    ∀ (xs : List (String × β)), alistGet k xs = Option.none ↔
      k ∉ xs.map Prod.fst := by
  intro xs
  induction xs with
  | nil => simp [alistGet]
  | cons kv rest ih =>
      obtain ⟨k', v⟩ := kv
      rw [alistGet]
      by_cases hk : k' = k
      · simp [hk]
      · simp [hk, ih]
        intro h
        exact fun hc => hk hc.symm

theorem alistGet_mem {β : Type} (k : String) (v : β) :
    ∀ (xs : List (String × β)), alistGet k xs = some v → (k, v) ∈ xs := by
  intro xs
  induction xs with
  | nil => intro h; simp [alistGet] at h
  | cons kv rest ih =>
      obtain ⟨k', v'⟩ := kv
      intro h
      rw [alistGet] at h
      by_cases hk : k' = k
      · rw [if_pos hk] at h
        injection h with h'
        subst hk
        subst h'
        exact List.mem_cons_self _ _
      · rw [if_neg hk] at h
        exact List.mem_cons_of_mem _ (ih h)

theorem hasKey_iff_mem {β : Type} (k : String) (xs : List (String × β)) :
    hasKey k xs = true ↔ k ∈ xs.map Prod.fst := by
  rw [hasKey]
  cases h : alistGet k xs with
  | none => simpa [h] using (alistGet_eq_none_iff k xs).mp h
  | some v =>
      simp [h]
      exact ⟨v, alistGet_mem k v xs h⟩

theorem keysNodup_nodup :
    ∀ (xs : List (String × PyVal)), keysNodup xs = true →
      (xs.map Prod.fst).Nodup := by
  intro xs
  induction xs with
  | nil => intro _; simp
  | cons kv rest ih =>
      obtain ⟨k, v⟩ := kv
      intro h
      rw [keysNodup, Bool.and_eq_true] at h
      obtain ⟨h1, h2⟩ := h
      rw [List.map_cons, List.nodup_cons]
      refine ⟨?_, ih h2⟩
      intro hc
      rw [Bool.not_eq_true', ← Bool.not_eq_true] at h1
      exact h1 ((hasKey_iff_mem k rest).mpr hc)

theorem alistGet_of_mem_nodup (k : String) (v : PyVal) :
    ∀ (xs : List (String × PyVal)), keysNodup xs = true → (k, v) ∈ xs →
      alistGet k xs = some v := by
  intro xs
  induction xs with
  | nil => intro _ h; simp at h
  | cons kv rest ih =>
      obtain ⟨k', v'⟩ := kv
      intro hnd hmem
      rw [keysNodup, Bool.and_eq_true] at hnd
      obtain ⟨h1, h2⟩ := hnd
      rcases List.mem_cons.mp hmem with heq | hmem'
      · rw [Prod.mk.injEq] at heq
        obtain ⟨hk, hv⟩ := heq
        subst hk; subst hv
        rw [alistGet, if_pos rfl]
      · rw [alistGet]
        by_cases hk : k' = k
        · exfalso
          subst hk
          rw [Bool.not_eq_true', ← Bool.not_eq_true] at h1
          exact h1 ((hasKey_iff_mem k' rest).mpr
            (List.mem_map.mpr ⟨(k', v), hmem', rfl⟩))
        · rw [if_neg hk]
          exact ih h2 hmem'

theorem getNum_some_exists (k : String) (xs : List (String × PyVal)) (q : ℚ)
    (h : getNum k xs = some q) :
    ∃ v, alistGet k xs = some v ∧ pyNum v = some q := by
  rw [getNum] at h
  cases ha : alistGet k xs with
  | none => rw [ha] at h; simp at h
  | some v => rw [ha] at h; exact ⟨v, rfl, h⟩

theorem getNumD_some_exists (k : String) (xs : List (String × PyVal))
    (d q : ℚ) (hk : hasKey k xs = true) (h : getNumD k d xs = some q) :
    ∃ v, alistGet k xs = some v ∧ pyNum v = some q := by
  rw [getNumD] at h
  cases ha : alistGet k xs with
  | none => rw [hasKey, ha] at hk; simp at hk
  | some v => rw [ha] at h; exact ⟨v, rfl, h⟩

theorem pyEq_float_num : ∀ (v : PyVal) (q : ℚ), pyNum v = some q →
    pyEq (.float q) v = true := by
  intro v q h
  cases v with
  | bool b =>
      have hb : pyNum (.bool b) = some (if b then 1 else 0) := rfl
      rw [hb] at h
      injection h with h'
      show (q == (if b then (1 : ℚ) else 0)) = true
      rw [h']
      simp
  | int n =>
      have hn : pyNum (.int n) = some (n : ℚ) := rfl
      rw [hn] at h
      injection h with h'
      show (q == ((n : ℤ) : ℚ)) = true
      rw [h']
      simp
  | float q' =>
      have hq : pyNum (.float q') = some q' := rfl
      rw [hq] at h
      injection h with h'
      show (q == q') = true
      rw [h']
      simp
  | none => simp [pyNum] at h
  | str s => simp [pyNum] at h
  | list xs => simp [pyNum] at h
  | dict xs => simp [pyNum] at h

theorem pyEqSub_of_forall :
    ∀ (out xs : List (String × PyVal)),
      (∀ kv ∈ out, ∃ w, alistGet kv.1 xs = some w ∧ pyEq kv.2 w = true) →
      pyEqSub out xs = true := by
  intro out
  induction out with
  | nil => intro xs _; rfl
  | cons kv rest ih =>
      obtain ⟨k, v⟩ := kv
      intro xs h
      obtain ⟨w, hw, hewq⟩ := h (k, v) (List.mem_cons_self _ _)
      rw [pyEqSub, Bool.and_eq_true]
      constructor
      · rw [hw]
        exact hewq
      · exact ih xs fun kv hkv => h kv (List.mem_cons_of_mem _ hkv)

theorem keysIncl_of_forall {β : Type} :
    ∀ (xs ys : List (String × β)),
      (∀ kv ∈ xs, hasKey kv.1 ys = true) → keysIncl xs ys = true := by
  intro xs
  induction xs with
  | nil => intro ys _; rfl
  | cons kv rest ih =>
      obtain ⟨k, v⟩ := kv
      intro ys h
      rw [keysIncl, Bool.and_eq_true]
      exact ⟨h (k, v) (List.mem_cons_self _ _),
        ih ys fun kv hkv => h kv (List.mem_cons_of_mem _ hkv)⟩

/-- Pigeonhole for exact key sets: a duplicate-free dict of the same length
as a duplicate-free key list containing all those keys has no other keys. -/
theorem keys_subset_of_exact (xs : List (String × PyVal)) (ks : List String)
    (_hnodup : keysNodup xs = true) (hks : ks.Nodup)
    (hlen : xs.length = ks.length)
    (hmem : ∀ k ∈ ks, hasKey k xs = true) :
    ∀ kv ∈ xs, kv.1 ∈ ks := by
  have hsub : ks ⊆ xs.map Prod.fst := fun k hk =>
    (hasKey_iff_mem k xs).mp (hmem k hk)
  have hsp : List.Subperm ks (xs.map Prod.fst) :=
    List.subperm_of_subset hks hsub
  have hlen' : (xs.map Prod.fst).length ≤ ks.length := by
    rw [List.length_map, hlen]
  have hperm : List.Perm ks (xs.map Prod.fst) := hsp.perm_of_length_le hlen'
  intro kv hkv
  exact hperm.symm.subset (List.mem_map.mpr ⟨kv, hkv, rfl⟩)

/-- Assembling Python dict equality from its three components. -/
theorem pyEq_dict_intro (out xs : List (String × PyVal))
    (hlen : out.length = xs.length) (hsub : pyEqSub out xs = true)
    (hincl : keysIncl xs out = true) :
    pyEq (.dict out) (.dict xs) = true := by
  show ((out.length == xs.length) && pyEqSub out xs && keysIncl xs out) = true
  simp [hlen, hsub, hincl]

/-- Positionally matching dicts: same keys in the same order, values
related by Python `==`. -/
def pairKeyEq : List (String × PyVal) → List (String × PyVal) → Bool
  | [], [] => true
  | (k, w) :: ws, (k', v) :: vs => (k == k') && pyEq w v && pairKeyEq ws vs
  | _, _ => false

theorem pairKeyEq_length : ∀ (out xs : List (String × PyVal)),
    pairKeyEq out xs = true → out.length = xs.length := by
  intro out
  induction out with
  | nil => intro xs h; cases xs with
    | nil => rfl
    | cons a b => simp [pairKeyEq] at h
  | cons kv ws ih =>
      obtain ⟨k, w⟩ := kv
      intro xs h
      cases xs with
      | nil => simp [pairKeyEq] at h
      | cons kv' vs =>
          obtain ⟨k', v⟩ := kv'
          rw [pairKeyEq, Bool.and_eq_true, Bool.and_eq_true] at h
          simp [ih vs h.2]

theorem pairKeyEq_keys : ∀ (out xs : List (String × PyVal)),
    pairKeyEq out xs = true → out.map Prod.fst = xs.map Prod.fst := by
  intro out
  induction out with
  | nil => intro xs h; cases xs with
    | nil => rfl
    | cons a b => simp [pairKeyEq] at h
  | cons kv ws ih =>
      obtain ⟨k, w⟩ := kv
      intro xs h
      cases xs with
      | nil => simp [pairKeyEq] at h
      | cons kv' vs =>
          obtain ⟨k', v⟩ := kv'
          rw [pairKeyEq, Bool.and_eq_true, Bool.and_eq_true] at h
          obtain ⟨⟨hk, _⟩, hrest⟩ := h
          rw [List.map_cons, List.map_cons, ih vs hrest]
          simp at hk
          rw [hk]

theorem pyEqSub_cons_right :
    ∀ (out : List (String × PyVal)) (k : String) (v : PyVal)
      (xs : List (String × PyVal)),
      (∀ kv ∈ out, kv.1 ≠ k) →
      pyEqSub out ((k, v) :: xs) = pyEqSub out xs := by
  intro out
  induction out with
  | nil => intro _ _ _ _; rfl
  | cons kv ws ih =>
      obtain ⟨k', w⟩ := kv
      intro k v xs h
      have hk : ¬ k = k' := fun hc =>
        h (k', w) (List.mem_cons_self _ _) (hc ▸ rfl)
      rw [pyEqSub, pyEqSub, alistGet, if_neg hk,
        ih k v xs fun kv hkv => h kv (List.mem_cons_of_mem _ hkv)]

theorem pairKeyEq_pyEqSub : ∀ (out xs : List (String × PyVal)),
    pairKeyEq out xs = true → keysNodup xs = true → pyEqSub out xs = true := by
  intro out
  induction out with
  | nil => intro xs _ _; rfl
  | cons kv ws ih =>
      obtain ⟨k, w⟩ := kv
      intro xs h hnd
      cases xs with
      | nil => simp [pairKeyEq] at h
      | cons kv' vs =>
          obtain ⟨k', v⟩ := kv'
          rw [pairKeyEq, Bool.and_eq_true, Bool.and_eq_true] at h
          obtain ⟨⟨hk, hq⟩, hrest⟩ := h
          simp at hk
          subst hk
          rw [keysNodup, Bool.and_eq_true] at hnd
          obtain ⟨hnk, hnvs⟩ := hnd
          rw [pyEqSub, Bool.and_eq_true]
          constructor
          · rw [alistGet, if_pos rfl]
            exact hq
          · have hkeys : ws.map Prod.fst = vs.map Prod.fst :=
              pairKeyEq_keys ws vs hrest
            have hnot : ∀ kv ∈ ws, kv.1 ≠ k := by
              intro kv hkv hc
              have : k ∈ vs.map Prod.fst := by
                rw [← hkeys]
                exact List.mem_map.mpr ⟨kv, hkv, hc⟩
              rw [Bool.not_eq_true', ← Bool.not_eq_true] at hnk
              exact hnk ((hasKey_iff_mem k vs).mpr this)
            rw [pyEqSub_cons_right ws k v vs hnot]
            exact ih vs hrest hnvs

theorem pyEq_of_pairKeyEq (out xs : List (String × PyVal))
    (h : pairKeyEq out xs = true) (hnd : keysNodup xs = true) :
    pyEq (.dict out) (.dict xs) = true := by
  apply pyEq_dict_intro
  · exact pairKeyEq_length out xs h
  · exact pairKeyEq_pyEqSub out xs h hnd
  · apply keysIncl_of_forall
    intro kv hkv
    rw [hasKey_iff_mem, pairKeyEq_keys out xs h]
    exact List.mem_map.mpr ⟨kv, hkv, rfl⟩

theorem allNumeric_mem : ∀ (xs : List (String × PyVal)) (k : String)
    (v : PyVal), allNumeric xs = true → (k, v) ∈ xs →
    (pyNum v).isSome = true := by
  intro xs
  induction xs with
  | nil => intro k v _ h; simp at h
  | cons kv rest ih =>
      obtain ⟨k', v'⟩ := kv
      intro k v hall hmem
      rw [allNumeric, Bool.and_eq_true] at hall
      rcases List.mem_cons.mp hmem with heq | hmem'
      · rw [Prod.mk.injEq] at heq
        rw [heq.2]
        exact hall.1
      · exact ih k v hall.2 hmem'

theorem getNum_of_allNumeric (k : String) (xs : List (String × PyVal))
    (hall : allNumeric xs = true) (hk : hasKey k xs = true) :
    ∃ q, getNum k xs = some q := by
  rw [hasKey] at hk
  cases ha : alistGet k xs with
  | none => rw [ha] at hk; simp at hk
  | some v =>
      have := allNumeric_mem xs k v hall (alistGet_mem k v xs ha)
      cases hn : pyNum v with
      | none => rw [hn] at this; simp at this
      | some q =>
          refine ⟨q, ?_⟩
          rw [getNum, ha]
          dsimp only
          rw [hn]

theorem getNumD_eq_getNum (k : String) (d : ℚ) (xs : List (String × PyVal))
    (hk : hasKey k xs = true) : getNumD k d xs = getNum k xs := by
  rw [getNumD, getNum]
  cases ha : alistGet k xs with
  | none => rw [hasKey, ha] at hk; simp at hk
  | some v => rfl

/-- A dict whose key set makes `_set_property_value` take the Vector branch:
exactly three keys including `x`, `y`, `z`, all values numeric. -/
def isVecDict (xs : List (String × PyVal)) : Bool :=
  xs.length == 3 && hasKey "x" xs && hasKey "y" xs && hasKey "z" xs &&
    allNumeric xs

/-- A dict whose key set makes `_set_property_value` take the Rotator
branch and whose keys are exactly `pitch`, `yaw`, `roll`. -/
def isRotDict (xs : List (String × PyVal)) : Bool :=
  xs.length == 3 && hasKey "pitch" xs && hasKey "yaw" xs &&
    hasKey "roll" xs && allNumeric xs

/-- A dict whose key set makes `_set_property_value` take the Color branch
and whose keys are exactly `r`, `g`, `b`, `a`. -/
def isColDict (xs : List (String × PyVal)) : Bool :=
  xs.length == 4 && hasKey "r" xs && hasKey "g" xs && hasKey "b" xs &&
    hasKey "a" xs && allNumeric xs

/-- Vector-shaped dicts round-trip: encoding takes the Vector branch and
decoding produces a `==`-equal dict. -/
theorem roundtrip_vec (xs : List (String × PyVal)) (qx qy qz : ℚ)
    (hnd : keysNodup xs = true) (hlen : xs.length = 3)
    (hx : hasKey "x" xs = true) (hy : hasKey "y" xs = true)
    (hz : hasKey "z" xs = true)
    (hqx : getNum "x" xs = some qx) (hqy : getNum "y" xs = some qy)
    (hqz : getNum "z" xs = some qz) :
    set_property_value (.dict xs) = some (pvVector qx qy qz) ∧
    pyEq (property_value_to_dict (pvVector qx qy qz)) (.dict xs) = true := by
  constructor
  · rw [set_property_value, if_pos (by simp [hx, hy, hz, hlen]),
      hqx, hqy, hqz]
  · have hout : property_value_to_dict (pvVector qx qy qz) =
        .dict [("x", .float qx), ("y", .float qy), ("z", .float qz)] := rfl
    rw [hout]
    apply pyEq_dict_intro
    · simp [hlen]
    · apply pyEqSub_of_forall
      intro kv hkv
      simp only [List.mem_cons, List.not_mem_nil, or_false] at hkv
      rcases hkv with rfl | rfl | rfl
      · obtain ⟨v, ha, hn⟩ := getNum_some_exists "x" xs qx hqx
        exact ⟨v, ha, pyEq_float_num v qx hn⟩
      · obtain ⟨v, ha, hn⟩ := getNum_some_exists "y" xs qy hqy
        exact ⟨v, ha, pyEq_float_num v qy hn⟩
      · obtain ⟨v, ha, hn⟩ := getNum_some_exists "z" xs qz hqz
        exact ⟨v, ha, pyEq_float_num v qz hn⟩
    · apply keysIncl_of_forall
      intro kv hkv
      have hmem : kv.1 ∈ ["x", "y", "z"] := by
        refine keys_subset_of_exact xs ["x", "y", "z"] hnd (by decide)
          (by rw [hlen]; rfl) ?_ kv hkv
        intro k hk
        simp only [List.mem_cons, List.not_mem_nil, or_false] at hk
        rcases hk with rfl | rfl | rfl
        · exact hx
        · exact hy
        · exact hz
      simp only [List.mem_cons, List.not_mem_nil, or_false] at hmem
      rcases hmem with h1 | h1 | h1 <;> rw [h1] <;> rfl

/-- Rotator-shaped dicts round-trip: the Vector condition fails (no `x`
key), the Rotator branch fires, and decoding restores the keys. -/
theorem roundtrip_rot (xs : List (String × PyVal)) (qp qy qr : ℚ)
    (hnd : keysNodup xs = true) (hlen : xs.length = 3)
    (hp : hasKey "pitch" xs = true) (hy : hasKey "yaw" xs = true)
    (hr : hasKey "roll" xs = true)
    (hqp : getNum "pitch" xs = some qp) (hqy : getNum "yaw" xs = some qy)
    (hqr : getNum "roll" xs = some qr) :
    set_property_value (.dict xs) = some (pvRotator qp qy qr) ∧
    pyEq (property_value_to_dict (pvRotator qp qy qr)) (.dict xs) = true := by
  have hsub : ∀ kv ∈ xs, kv.1 ∈ ["pitch", "yaw", "roll"] := by
    refine keys_subset_of_exact xs ["pitch", "yaw", "roll"] hnd (by decide)
      (by rw [hlen]; rfl) ?_
    intro k hk
    simp only [List.mem_cons, List.not_mem_nil, or_false] at hk
    rcases hk with rfl | rfl | rfl
    · exact hp
    · exact hy
    · exact hr
  have hxf : hasKey "x" xs = false := by
    rw [Bool.eq_false_iff]
    intro hc
    rw [hasKey_iff_mem] at hc
    obtain ⟨kv, hkv, hfst⟩ := List.mem_map.mp hc
    have := hsub kv hkv
    rw [hfst] at this
    simp at this
  constructor
  · rw [set_property_value, if_neg (by simp [hxf]),
      if_pos (by simp [hp, hy, hr]), hqp, hqy, hqr]
  · have hout : property_value_to_dict (pvRotator qp qy qr) =
        .dict [("pitch", .float qp), ("yaw", .float qy),
               ("roll", .float qr)] := rfl
    rw [hout]
    apply pyEq_dict_intro
    · simp [hlen]
    · apply pyEqSub_of_forall
      intro kv hkv
      simp only [List.mem_cons, List.not_mem_nil, or_false] at hkv
      rcases hkv with rfl | rfl | rfl
      · obtain ⟨v, ha, hn⟩ := getNum_some_exists "pitch" xs qp hqp
        exact ⟨v, ha, pyEq_float_num v qp hn⟩
      · obtain ⟨v, ha, hn⟩ := getNum_some_exists "yaw" xs qy hqy
        exact ⟨v, ha, pyEq_float_num v qy hn⟩
      · obtain ⟨v, ha, hn⟩ := getNum_some_exists "roll" xs qr hqr
        exact ⟨v, ha, pyEq_float_num v qr hn⟩
    · apply keysIncl_of_forall
      intro kv hkv
      have hmem := hsub kv hkv
      simp only [List.mem_cons, List.not_mem_nil, or_false] at hmem
      rcases hmem with h1 | h1 | h1 <;> rw [h1] <;> rfl

/-- Color-shaped dicts (exactly `r`,`g`,`b`,`a`) round-trip: the Vector and
Rotator conditions fail, the Color branch fires. -/
theorem roundtrip_col (xs : List (String × PyVal)) (cr cg cb ca : ℚ)
    (hnd : keysNodup xs = true) (hlen : xs.length = 4)
    (hr : hasKey "r" xs = true) (hg : hasKey "g" xs = true)
    (hb : hasKey "b" xs = true) (ha : hasKey "a" xs = true)
    (hqr : getNumD "r" 0 xs = some cr) (hqg : getNumD "g" 0 xs = some cg)
    (hqb : getNumD "b" 0 xs = some cb) (hqa : getNumD "a" 1 xs = some ca) :
    set_property_value (.dict xs) = some (pvColor cr cg cb ca) ∧
    pyEq (property_value_to_dict (pvColor cr cg cb ca)) (.dict xs) = true := by
  have hsub : ∀ kv ∈ xs, kv.1 ∈ ["r", "g", "b", "a"] := by
    refine keys_subset_of_exact xs ["r", "g", "b", "a"] hnd (by decide)
      (by rw [hlen]; rfl) ?_
    intro k hk
    simp only [List.mem_cons, List.not_mem_nil, or_false] at hk
    rcases hk with rfl | rfl | rfl | rfl
    · exact hr
    · exact hg
    · exact hb
    · exact ha
  have hxf : hasKey "x" xs = false := by
    rw [Bool.eq_false_iff]
    intro hc
    rw [hasKey_iff_mem] at hc
    obtain ⟨kv, hkv, hfst⟩ := List.mem_map.mp hc
    have := hsub kv hkv
    rw [hfst] at this
    simp at this
  have hpf : hasKey "pitch" xs = false := by
    rw [Bool.eq_false_iff]
    intro hc
    rw [hasKey_iff_mem] at hc
    obtain ⟨kv, hkv, hfst⟩ := List.mem_map.mp hc
    have := hsub kv hkv
    rw [hfst] at this
    simp at this
  constructor
  · rw [set_property_value, if_neg (by simp [hxf]), if_neg (by simp [hpf]),
      if_pos (by simp [hr, hg, hb]), hqr, hqg, hqb, hqa]
  · have hout : property_value_to_dict (pvColor cr cg cb ca) =
        .dict [("r", .float cr), ("g", .float cg), ("b", .float cb),
               ("a", .float ca)] := rfl
    rw [hout]
    apply pyEq_dict_intro
    · simp [hlen]
    · apply pyEqSub_of_forall
      intro kv hkv
      simp only [List.mem_cons, List.not_mem_nil, or_false] at hkv
      rcases hkv with rfl | rfl | rfl | rfl
      · obtain ⟨v, hav, hn⟩ := getNumD_some_exists "r" xs 0 cr hr hqr
        exact ⟨v, hav, pyEq_float_num v cr hn⟩
      · obtain ⟨v, hav, hn⟩ := getNumD_some_exists "g" xs 0 cg hg hqg
        exact ⟨v, hav, pyEq_float_num v cg hn⟩
      · obtain ⟨v, hav, hn⟩ := getNumD_some_exists "b" xs 0 cb hb hqb
        exact ⟨v, hav, pyEq_float_num v cb hn⟩
      · obtain ⟨v, hav, hn⟩ := getNumD_some_exists "a" xs 1 ca ha hqa
        exact ⟨v, hav, pyEq_float_num v ca hn⟩
    · apply keysIncl_of_forall
      intro kv hkv
      have hmem := hsub kv hkv
      simp only [List.mem_cons, List.not_mem_nil, or_false] at hmem
      rcases hmem with h1 | h1 | h1 | h1 <;> rw [h1] <;> rfl

mutual
/-- "Unambiguous" values for the round-trip claim: scalars and strings are
always unambiguous; a sequence is unambiguous when its elements are; a dict
(with well-formed, duplicate-free keys) is unambiguous when it is exactly
vector-shaped, exactly rotator-shaped (`pitch`,`yaw`,`roll`), exactly
color-shaped (`r`,`g`,`b`,`a`), or triggers none of the three special key
rules of `_set_property_value` and has unambiguous values. -/
def unamb : PyVal → Bool
  | .none => true
  | .bool _ => true
  | .int _ => true
  | .float _ => true
  | .str _ => true
  | .list xs => unambList xs
  | .dict xs =>
      keysNodup xs &&
      (isVecDict xs || isRotDict xs || isColDict xs ||
       (!(hasKey "x" xs && hasKey "y" xs && hasKey "z" xs &&
          xs.length == 3) &&
        !(hasKey "pitch" xs && hasKey "yaw" xs && hasKey "roll" xs) &&
        !(hasKey "r" xs && hasKey "g" xs && hasKey "b" xs) &&
        unambDict xs))

def unambList : List PyVal → Bool
  | [] => true
  | v :: rest => unamb v && unambList rest

def unambDict : List (String × PyVal) → Bool
  | [] => true
  | (_, v) :: rest => unamb v && unambDict rest
end

mutual
/-- Round trip on unambiguous values: encoding succeeds and decoding the
result is Python-`==` to the original. -/
theorem roundtrip_val : ∀ (v : PyVal), unamb v = true →
    ∃ pv, set_property_value v = some pv ∧
      pyEq (property_value_to_dict pv) v = true
  | .none, _ => ⟨pvNone, rfl, rfl⟩
  | .bool b, _ => ⟨pvBool b, rfl, by cases b <;> rfl⟩
  | .int n, _ =>
      ⟨pvInt n, rfl, by show (((n : ℚ)) == ((n : ℚ))) = true; simp⟩
  | .float q, _ => ⟨pvFloat q, rfl, by show (q == q) = true; simp⟩
  | .str s, _ => ⟨pvString s, rfl, by show (s == s) = true; simp⟩
  | .list xs, h => by
      have h' : unambList xs = true := h
      obtain ⟨avs, henc, heq⟩ := roundtrip_list xs h'
      refine ⟨pvArray avs, ?_, ?_⟩
      · rw [set_property_value, henc]
      · show pyEqList (pvtdArray avs) xs = true
        exact heq
  | .dict xs, h => by
      have h' : (keysNodup xs &&
          (isVecDict xs || isRotDict xs || isColDict xs ||
           (!(hasKey "x" xs && hasKey "y" xs && hasKey "z" xs &&
              xs.length == 3) &&
            !(hasKey "pitch" xs && hasKey "yaw" xs && hasKey "roll" xs) &&
            !(hasKey "r" xs && hasKey "g" xs && hasKey "b" xs) &&
            unambDict xs))) = true := h
      rw [Bool.and_eq_true] at h'
      obtain ⟨hnd, hcases⟩ := h'
      rw [Bool.or_eq_true, Bool.or_eq_true, Bool.or_eq_true] at hcases
      rcases hcases with ((hvec | hrot) | hcol) | hstr
      · rw [isVecDict, Bool.and_eq_true, Bool.and_eq_true, Bool.and_eq_true,
          Bool.and_eq_true] at hvec
        obtain ⟨⟨⟨⟨hl, hx⟩, hy⟩, hz⟩, hnum⟩ := hvec
        have hlen : xs.length = 3 := by simpa using hl
        obtain ⟨qx, hqx⟩ := getNum_of_allNumeric "x" xs hnum hx
        obtain ⟨qy, hqy⟩ := getNum_of_allNumeric "y" xs hnum hy
        obtain ⟨qz, hqz⟩ := getNum_of_allNumeric "z" xs hnum hz
        obtain ⟨h1, h2⟩ :=
          roundtrip_vec xs qx qy qz hnd hlen hx hy hz hqx hqy hqz
        exact ⟨pvVector qx qy qz, h1, h2⟩
      · rw [isRotDict, Bool.and_eq_true, Bool.and_eq_true, Bool.and_eq_true,
          Bool.and_eq_true] at hrot
        obtain ⟨⟨⟨⟨hl, hp⟩, hy⟩, hr⟩, hnum⟩ := hrot
        have hlen : xs.length = 3 := by simpa using hl
        obtain ⟨qp, hqp⟩ := getNum_of_allNumeric "pitch" xs hnum hp
        obtain ⟨qy, hqy⟩ := getNum_of_allNumeric "yaw" xs hnum hy
        obtain ⟨qr, hqr⟩ := getNum_of_allNumeric "roll" xs hnum hr
        obtain ⟨h1, h2⟩ :=
          roundtrip_rot xs qp qy qr hnd hlen hp hy hr hqp hqy hqr
        exact ⟨pvRotator qp qy qr, h1, h2⟩
      · rw [isColDict, Bool.and_eq_true, Bool.and_eq_true, Bool.and_eq_true,
          Bool.and_eq_true, Bool.and_eq_true] at hcol
        obtain ⟨⟨⟨⟨⟨hl, hcr⟩, hcg⟩, hcb⟩, hca⟩, hnum⟩ := hcol
        have hlen : xs.length = 4 := by simpa using hl
        obtain ⟨qr, hqr⟩ := getNum_of_allNumeric "r" xs hnum hcr
        obtain ⟨qg, hqg⟩ := getNum_of_allNumeric "g" xs hnum hcg
        obtain ⟨qb, hqb⟩ := getNum_of_allNumeric "b" xs hnum hcb
        obtain ⟨qa, hqa⟩ := getNum_of_allNumeric "a" xs hnum hca
        obtain ⟨h1, h2⟩ := roundtrip_col xs qr qg qb qa hnd hlen hcr hcg
          hcb hca
          (by rw [getNumD_eq_getNum "r" 0 xs hcr]; exact hqr)
          (by rw [getNumD_eq_getNum "g" 0 xs hcg]; exact hqg)
          (by rw [getNumD_eq_getNum "b" 0 xs hcb]; exact hqb)
          (by rw [getNumD_eq_getNum "a" 1 xs hca]; exact hqa)
        exact ⟨pvColor qr qg qb qa, h1, h2⟩
      · rw [Bool.and_eq_true, Bool.and_eq_true, Bool.and_eq_true] at hstr
        obtain ⟨⟨⟨hc1, hc2⟩, hc3⟩, hud⟩ := hstr
        rw [Bool.not_eq_true'] at hc1 hc2 hc3
        obtain ⟨svs, hsvs, hpair⟩ := roundtrip_dict xs hud
        refine ⟨pvStruct svs, ?_, ?_⟩
        · rw [set_property_value, if_neg (by simp [hc1]),
            if_neg (by simp [hc2]), if_neg (by simp [hc3]), hsvs]
        · show pyEq (.dict (pvtdStruct svs)) (.dict xs) = true
          exact pyEq_of_pairKeyEq (pvtdStruct svs) xs hpair hnd

/-- Round trip for the array branch: elementwise. -/
theorem roundtrip_list : ∀ (xs : List PyVal), unambList xs = true →
    ∃ avs, setArrayValues xs = some avs ∧
      pyEqList (pvtdArray avs) xs = true
  | [], _ => ⟨[], rfl, rfl⟩
  | v :: rest, h => by
      rw [unambList, Bool.and_eq_true] at h
      obtain ⟨pv, hpv, hq⟩ := roundtrip_val v h.1
      obtain ⟨avs, havs, hrest⟩ := roundtrip_list rest h.2
      refine ⟨pv :: avs, ?_, ?_⟩
      · rw [setArrayValues, hpv, havs]
      · rw [pvtdArray, pyEqList, Bool.and_eq_true]
        exact ⟨hq, hrest⟩

/-- Round trip for the struct branch: entrywise, preserving keys and
order. -/
theorem roundtrip_dict : ∀ (xs : List (String × PyVal)),
    unambDict xs = true →
    ∃ svs, setStructValues xs = some svs ∧
      pairKeyEq (pvtdStruct svs) xs = true
  | [], _ => ⟨[], rfl, rfl⟩
  | (k, v) :: rest, h => by
      rw [unambDict, Bool.and_eq_true] at h
      obtain ⟨pv, hpv, hq⟩ := roundtrip_val v h.1
      obtain ⟨svs, hsvs, hrest⟩ := roundtrip_dict rest h.2
      refine ⟨(k, pv) :: svs, ?_, ?_⟩
      · rw [setStructValues, hpv, hsvs]
      · rw [pvtdStruct, pairKeyEq]
        simp [hq, hrest]
end

/-- **C5.** For every unambiguous value — scalars, strings, sequences of
unambiguous values, and well-formed dicts that are either exactly
vector-shaped (`x`,`y`,`z`), exactly rotator-shaped (`pitch`,`yaw`,`roll`),
exactly color-shaped (`r`,`g`,`b`,`a`), or plain structs triggering none of
the three special key rules — `_set_property_value` succeeds and feeding
its output to `_property_value_to_dict` returns a value that is Python-`==`
to the original (numeric components come back as floats, so equality is up
to Python numeric coercion). -/
theorem c5_typed_roundtrip (v : PyVal) (h : unamb v = true) :
    ∃ pv, set_property_value v = some pv ∧
      pyEq (property_value_to_dict pv) v = true :=
  roundtrip_val v h

/-- C5 witness at the vector dict `{"x": 1, "y": 2, "z": 3}`. -/
theorem c5_typed_roundtrip_witness :
    unamb (.dict [("x", .int 1), ("y", .int 2), ("z", .int 3)]) = true ∧
    ∃ pv, set_property_value
        (.dict [("x", .int 1), ("y", .int 2), ("z", .int 3)]) = some pv ∧
      pyEq (property_value_to_dict pv)
        (.dict [("x", .int 1), ("y", .int 2), ("z", .int 3)]) = true :=
  ⟨by decide, c5_typed_roundtrip _ (by decide)⟩

/-! ### Where the two decoders agree (C10)

`_extract_property_value` and `_property_value_to_dict` coincide on the
scalar tags, Name, Vector and Color, and recursively on nonempty Structs
and Arrays (and on empty ones whose `string_value` is empty, where both
give the empty dict/list).  They diverge on Rotator, Transform,
Object/Class, Map, Enum and unknown tags. -/

mutual
/-- The tags (with side conditions) on which the two decoders return the
same value, checked recursively through Struct and Array. -/
def agreeTags : PropVal → Bool
  | .mk t _ _ _ sv _ _ _ _ _ svs avs _ _ =>
      if t = 0 ∨ t = 1 ∨ t = 2 ∨ t = 3 ∨ t = 4 ∨ t = 5 ∨ t = 6 ∨ t = 9 then
        true
      else if t = 12 then
        if svs.isEmpty then sv == "" else agreeStruct svs
      else if t = 13 then
        if avs.isEmpty then sv == "" else agreeArray avs
      else false

def agreeStruct : List (String × PropVal) → Bool
  | [] => true
  | (_, v) :: rest => agreeTags v && agreeStruct rest

def agreeArray : List PropVal → Bool
  | [] => true
  | v :: rest => agreeTags v && agreeArray rest
end

mutual
/-- On agreeing tags, `_extract_property_value` succeeds and returns
exactly what `_property_value_to_dict` returns. -/
theorem extract_agree : ∀ (pv : PropVal), agreeTags pv = true →
    extract_property_value pv = some (property_value_to_dict pv)
  | .mk t bv nv fv sv vec rot tf col op svs avs en ev, h => by
      have h' : (if t = 0 ∨ t = 1 ∨ t = 2 ∨ t = 3 ∨ t = 4 ∨ t = 5 ∨
            t = 6 ∨ t = 9 then true
          else if t = 12 then
            if svs.isEmpty then sv == "" else agreeStruct svs
          else if t = 13 then
            if avs.isEmpty then sv == "" else agreeArray avs
          else false) = true := h
      by_cases hc1 : t = 0 ∨ t = 1 ∨ t = 2 ∨ t = 3 ∨ t = 4 ∨ t = 5 ∨
          t = 6 ∨ t = 9
      · rcases hc1 with rfl | rfl | rfl | rfl | rfl | rfl | rfl | rfl <;> rfl
      · rw [if_neg hc1] at h'
        by_cases hc12 : t = 12
        · subst hc12
          rw [if_pos rfl] at h'
          cases svs with
          | nil =>
              simp only [List.isEmpty_nil, if_true, beq_iff_eq] at h'
              subst h'
              rfl
          | cons kv rest =>
              rw [if_neg (by simp)] at h'
              have hs : extractStruct (kv :: rest) =
                  some (pvtdStruct (kv :: rest)) :=
                extract_struct_agree (kv :: rest) h'
              have he : extract_property_value
                  (.mk 12 bv nv fv sv vec rot tf col op (kv :: rest) avs
                    en ev) =
                  (match extractStruct (kv :: rest) with
                   | some d => some (.dict d)
                   | Option.none => Option.none) := rfl
              rw [he, hs]
              rfl
        · rw [if_neg hc12] at h'
          by_cases hc13 : t = 13
          · subst hc13
            rw [if_pos rfl] at h'
            cases avs with
            | nil =>
                simp only [List.isEmpty_nil, if_true, beq_iff_eq] at h'
                subst h'
                rfl
            | cons v rest =>
                rw [if_neg (by simp)] at h'
                have hs : extractArray (v :: rest) =
                    some (pvtdArray (v :: rest)) :=
                  extract_array_agree (v :: rest) h'
                have he : extract_property_value
                    (.mk 13 bv nv fv sv vec rot tf col op svs (v :: rest)
                      en ev) =
                    (match extractArray (v :: rest) with
                     | some l => some (.list l)
                     | Option.none => Option.none) := rfl
                rw [he, hs]
                rfl
          · rw [if_neg hc13] at h'
            simp at h'

/-- Struct entries: entrywise agreement. -/
theorem extract_struct_agree : ∀ (svs : List (String × PropVal)),
    agreeStruct svs = true → extractStruct svs = some (pvtdStruct svs)
  | [], _ => rfl
  | (k, v) :: rest, h => by
      rw [agreeStruct, Bool.and_eq_true] at h
      rw [extractStruct, extract_agree v h.1,
        extract_struct_agree rest h.2]
      rfl

/-- Array elements: elementwise agreement. -/
theorem extract_array_agree : ∀ (avs : List PropVal),
    agreeArray avs = true → extractArray avs = some (pvtdArray avs)
  | [], _ => rfl
  | v :: rest, h => by
      rw [agreeArray, Bool.and_eq_true] at h
      rw [extractArray, extract_agree v h.1, extract_array_agree rest h.2]
      rfl
end

/-- **C10, counterexample.**  The two decoders are not extensionally equal:
on a Transform value `_extract_property_value` returns location, rotation
and scale as nested coordinate dicts, while `_property_value_to_dict`
returns them as coordinate lists. -/
theorem c10_decoders_agree_counterexample :
    extract_property_value
      (.mk 8 false 0 0 "" ⟨0, 0, 0⟩ ⟨0, 0, 0⟩
        ⟨⟨1, 2, 3⟩, ⟨4, 5, 6⟩, ⟨7, 8, 9⟩⟩ ⟨0, 0, 0, 0⟩ "" [] [] "" 0) ≠
    some (property_value_to_dict
      (.mk 8 false 0 0 "" ⟨0, 0, 0⟩ ⟨0, 0, 0⟩
        ⟨⟨1, 2, 3⟩, ⟨4, 5, 6⟩, ⟨7, 8, 9⟩⟩ ⟨0, 0, 0, 0⟩ "" [] [] "" 0)) := by
  have h1 : extract_property_value
      (.mk 8 false 0 0 "" ⟨0, 0, 0⟩ ⟨0, 0, 0⟩
        ⟨⟨1, 2, 3⟩, ⟨4, 5, 6⟩, ⟨7, 8, 9⟩⟩ ⟨0, 0, 0, 0⟩ "" [] [] "" 0) =
      some (.dict
        [("location", .dict [("x", .float 1), ("y", .float 2),
                             ("z", .float 3)]),
         ("rotation", .dict [("pitch", .float 4), ("yaw", .float 5),
                             ("roll", .float 6)]),
         ("scale", .dict [("x", .float 7), ("y", .float 8),
                          ("z", .float 9)])]) := rfl
  have h2 : property_value_to_dict
      (.mk 8 false 0 0 "" ⟨0, 0, 0⟩ ⟨0, 0, 0⟩
        ⟨⟨1, 2, 3⟩, ⟨4, 5, 6⟩, ⟨7, 8, 9⟩⟩ ⟨0, 0, 0, 0⟩ "" [] [] "" 0) =
      .dict
        [("location", .list [.float 1, .float 2, .float 3]),
         ("rotation", .list [.float 4, .float 5, .float 6]),
         ("scale", .list [.float 7, .float 8, .float 9])] := rfl
  rw [h1, h2]
  intro h
  simp at h

/-- **C10 (amended).**  The decoders agree exactly on the scalar tags
(`None`, `Bool`, `Int`, `Float`, `String`, `Name`), `Vector`, `Color`, and
recursively on `Struct`s and `Array`s whose repeated field is nonempty
(and on empty ones whose `string_value` fallback is the empty string):
there `_extract_property_value` returns precisely
`_property_value_to_dict`'s value.  (They diverge on `Rotator`,
`Transform`, `Object`/`Class`, `Map`, `Enum` and unknown tags.) -/
theorem c10_decoders_agree_amended (pv : PropVal)
    (h : agreeTags pv = true) :
    extract_property_value pv = some (property_value_to_dict pv) :=
  extract_agree pv h

/-- C10 witness: a Struct containing an Int and an Array of a Float and a
Bool, decoded identically by both decoders. -/
theorem c10_decoders_agree_amended_witness :
    agreeTags (pvStruct [("a", pvInt 5),
      ("b", pvArray [pvFloat 1, pvBool true])]) = true ∧
    extract_property_value (pvStruct [("a", pvInt 5),
      ("b", pvArray [pvFloat 1, pvBool true])]) =
    some (property_value_to_dict (pvStruct [("a", pvInt 5),
      ("b", pvArray [pvFloat 1, pvBool true])])) :=
  ⟨by decide, c10_decoders_agree_amended _ (by decide)⟩

end AgentBridge
